import Mathlib

/-!
# Verification of the pandorasbox encrypted in-memory filesystem (EVFS)

Shallow embedding of the core of `capnspacehook/pandorasbox`:

* `src/vfs/vfsfile.go` — the open-file handle (`file`) with its read / write /
  seek / truncate / readdir operations over a sealed (encrypted) byte store;
* `src/inode/inode.go` — the inode store (directory entries, link / unlink /
  resolve / rename) together with `src/inode/pathutils.go` (`PopPath`, `Abs`);
* `src/vfs/vfs.go` — the `pbFS` filesystem root (`OpenFile`, `Mkdir`,
  `Rename`, `Truncate`).

Modelling conventions:

* Go byte slices are `List Nat`; Go `int`/`int64` values that can be negative
  (sizes, offsets) are `Int`; non-negative counters are `Nat`.
* The AEAD primitive (`memguard/core`) is out of scope for the spec and is
  modelled as a black box that expands a plaintext by a fixed `Overhead`
  and recovers it on decryption; sealed keys are not modelled (they carry no
  observable data), and a key-open failure is folded into decrypt failure.
* Go run-time panics (nil dereference, out-of-range slice index, negative
  `make` length) are modelled explicitly via the `panicked` outcome.
* Timestamps (`Atime`/`Mtime`/`Ctime`) and lock operations are not modelled:
  no claim mentions them and the embedding is sequential.
* The Go heap of `*Inode` pointers is modelled as an arena (`List InodeData`)
  addressed by inode number; `*Inode` fields in directory entries become the
  target's inode number.
-/

namespace PBox

/-- Error kinds surfaced by the modelled operations, by semantics (the Go code
wraps most of them in `fs.PathError` / `os.LinkError`; the wrapping carries no
behavioural content and is dropped). -/
inductive FsErr where
  /-- `fs.ErrClosed` (a `file` whose `node` pointer is nil). -/
  | closed
  /-- `fs.ErrPermission` / `os.ErrPermission`. -/
  | permission
  /-- `syscall.EISDIR`. -/
  | isADirectory
  /-- `syscall.ENOTDIR` and the inode store's `errors.New("not a directory")`. -/
  | notADirectory
  /-- `fs.ErrInvalid`. -/
  | invalid
  /-- `errors.New("negative offset")` in `ReadAt`/`WriteAt`. -/
  | negOffset
  /-- `io.EOF`. -/
  | eof
  /-- `fs.ErrNotExist` / `syscall.ENOENT`. -/
  | notExist
  /-- `fs.ErrExist` / `syscall.EEXIST`. -/
  | exist
  /-- a `memguard/core` decrypt (or sealed-key open) failure. -/
  | decryptFailed
  /-- `errors.New("the root folder may not be moved or renamed")`. -/
  | renameRoot
deriving DecidableEq

/-- Outcome of running a piece of Go code that can panic: either a value or a
run-time panic (nil dereference / slice index out of range / negative `make`). -/
inductive Outcome (α : Type) where
  | ok : α → Outcome α
  | panicked
deriving DecidableEq

/-- Result of an operation that returns a value or an error, and can also
panic at run time. -/
inductive Res (α : Type) where
  | ok : α → Res α
  | err : FsErr → Res α
  | panicked
deriving DecidableEq

/-- `os.O_RDONLY` (Go, linux amd64 values). -/
def O_RDONLY : Nat := 0
/-- `os.O_WRONLY`. -/
def O_WRONLY : Nat := 1
/-- `os.O_RDWR`. -/
def O_RDWR : Nat := 2
/-- `_O_ACCESS = 0x3` — masks the access mode (src/vfs/vfs.go). -/
def O_ACCESS : Nat := 3
/-- `os.O_CREATE`. -/
def O_CREATE : Nat := 64
/-- `os.O_EXCL`. -/
def O_EXCL : Nat := 128
/-- `os.O_TRUNC`. -/
def O_TRUNC : Nat := 512
/-- `os.O_APPEND`. -/
def O_APPEND : Nat := 1024

/-- Go's built-in `copy(dst, src)` (also `memguard/core.Copy` and, data-wise,
`core.Move`): copies `min (len dst) (len src)` bytes into the front of `dst`,
leaving the rest of `dst` unchanged. -/
def goCopy (dst src : List Nat) : List Nat :=
  src.take (min dst.length src.length) ++ dst.drop (min dst.length src.length)

/-- Insertion at index `x` (Go `append` + `copy` shift in `Inode.linki`). -/
def insertAt (x : Nat) (e : α) (l : List α) : List α :=
  l.take x ++ e :: l.drop x

/-- Removal of index `x` (Go `copy` shift + reslice in `Inode.unlinki`). -/
def removeAt (x : Nat) (l : List α) : List α :=
  l.take x ++ l.drop (x + 1)

/-- `memguard/core.Overhead`: the fixed number of bytes by which a ciphertext
exceeds its plaintext (nonce + authentication tag). -/
def Overhead : Nat := 40

/-- Black-box model of `memguard/core.Encrypt` under a fresh key: the
ciphertext determines the plaintext and is exactly `Overhead` bytes longer.
(The key itself is not modelled; it is never observed.) -/
def Encrypt (data : List Nat) : List Nat :=
  data ++ List.replicate Overhead 0

/-- Black-box model of opening the sealed key plus `memguard/core.Decrypt
(ciphertext, key, buf)`: fails if the ciphertext is shorter than `Overhead`
(or the key is unusable), or if `buf` cannot hold the plaintext; otherwise the
plaintext is copied into the front of `buf`. -/
def Decrypt (ct : List Nat) (buf : List Nat) : Option (List Nat) :=
  if ct.length < Overhead then none
  else
    let pt := ct.take (ct.length - Overhead)
    if buf.length < pt.length then none
    else some (goCopy buf pt)

/-- The state visible through one open `file` handle (src/vfs/vfsfile.go,
`file` + `sealedFile`): `closed` models `f.node == nil` (set by `Close`),
`isDir`/`size`/`dirListing` are the shared inode's fields, `ciphertext` is the
shared sealed slot's ciphertext (`[]` when the slot is empty), and
`offset`/`diroffset` are the handle's cursors. -/
structure FileState where
  closed : Bool
  isDir : Bool
  flags : Nat
  size : Int
  ciphertext : List Nat
  offset : Int
  diroffset : Int
  dirListing : List (String × Nat)
deriving DecidableEq

/-- `file.updateSize` (src/vfs/vfsfile.go:313): recomputes the inode size
from the stored ciphertext. -/
def updateSize (f : FileState) : FileState :=
  if f.ciphertext.length = 0 then { f with size := 0 }
  else { f with size := (f.ciphertext.length : Int) - (Overhead : Int) }

/-- `file.read(p, offset)` (src/vfs/vfsfile.go:333): the shared body of `Read`
and `ReadAt`. Returns the buffer contents after the call together with the
reported count and error; the handle state is not changed by `read` itself. -/
def fileRead (f : FileState) (p : List Nat) (offset : Int) :
    Outcome (List Nat × Nat × Option FsErr) :=
  if f.closed then .ok (p, 0, some .closed)
  else if p.length = 0 then .ok (p, 0, none)
  else if f.flags.land O_ACCESS = O_WRONLY then .ok (p, 0, some .permission)
  else if f.isDir then .ok (p, 0, some .isADirectory)
  else if f.size ≤ offset then .ok (p, 0, some .eof)
  else if f.size = 0 then .ok (p, 0, some .eof)
  else if f.size < 0 then .panicked  -- make([]byte, f.node.Size) with negative size
  else
    match Decrypt f.ciphertext (List.replicate f.size.toNat 0) with
    | none => .ok (p, 0, some .decryptFailed)
    | some plaintext =>
      -- core.Copy(p, plaintext[offset:]) — panics if offset is out of range
      if offset < 0 ∨ (plaintext.length : Int) < offset then .panicked
      else
        let tail := plaintext.drop offset.toNat
        let p2 := goCopy p tail
        let n := min p.length tail.length
        if n < p.length then .ok (p2, n, some .eof) else .ok (p2, n, none)

/-- `file.Read` (src/vfs/vfsfile.go:326): reads at the handle offset and
advances it by the returned count. -/
def fileReadOp (f : FileState) (p : List Nat) :
    Outcome ((List Nat × Nat × Option FsErr) × FileState) :=
  match fileRead f p f.offset with
  | .panicked => .panicked
  | .ok (p2, n, e) => .ok ((p2, n, e), { f with offset := f.offset + n })

/-- `file.ReadAt` (src/vfs/vfsfile.go:392): reads at an explicit offset
without touching the handle offset. -/
def fileReadAt (f : FileState) (p : List Nat) (off : Int) :
    Outcome (List Nat × Nat × Option FsErr) :=
  if f.closed then .ok (p, 0, some .closed)
  else if off < 0 then .ok (p, 0, some .negOffset)
  else if f.flags.land O_ACCESS = O_WRONLY then .ok (p, 0, some .permission)
  else if f.isDir then .ok (p, 0, some .isADirectory)
  else fileRead f p off

/-- `file.write(p, offset)` (src/vfs/vfsfile.go:470): the shared body of
`Write` and `WriteAt`. Decrypts the current contents, splices `p` in at
`offset` (growing and zero-filling as needed), re-encrypts under a fresh key
and recomputes the size. -/
def fileWrite (f : FileState) (p : List Nat) (offset : Int) :
    Outcome ((Nat × Option FsErr) × FileState) :=
  if f.closed then .ok ((0, some .closed), f)
  else if f.flags.land O_ACCESS = O_RDONLY then .ok ((0, some .permission), f)
  else if f.isDir then .ok ((0, some .isADirectory), f)
  else if f.size < 0 then .panicked  -- plaintext := make([]byte, f.node.Size)
  else
    let step : List Nat → Outcome ((Nat × Option FsErr) × FileState) :=
      fun plaintext =>
        let size : Int := (p.length : Int) + offset
        let data := if size > f.size
          then goCopy (List.replicate size.toNat 0) plaintext
          else plaintext
        -- core.Copy(data[offset:], p) — panics if offset is out of range
        if offset < 0 ∨ (data.length : Int) < offset then .panicked
        else
          let data2 := data.take offset.toNat ++ goCopy (data.drop offset.toNat) p
          let f2 := updateSize { f with ciphertext := Encrypt data2 }
          let n := min p.length (data2.length - offset.toNat)
          .ok ((n, none), f2)
    if f.size ≠ 0 then
      match Decrypt f.ciphertext (List.replicate f.size.toNat 0) with
      | none => .ok ((0, some .decryptFailed), f)
      | some plaintext => step plaintext
    else step (List.replicate f.size.toNat 0)

/-- `file.Write` (src/vfs/vfsfile.go:463): writes at the handle offset and
advances it by the returned count. -/
def fileWriteOp (f : FileState) (p : List Nat) :
    Outcome ((Nat × Option FsErr) × FileState) :=
  match fileWrite f p f.offset with
  | .panicked => .panicked
  | .ok ((n, e), f2) => .ok ((n, e), { f2 with offset := f2.offset + n })

/-- `file.WriteAt` (src/vfs/vfsfile.go:532): positioned write. Note that the
source checks closedness, negative offset, read-only access and directories —
but performs no `O_APPEND` check. -/
def fileWriteAt (f : FileState) (p : List Nat) (off : Int) :
    Outcome ((Nat × Option FsErr) × FileState) :=
  if f.closed then .ok ((0, some .closed), f)
  else if off < 0 then .ok ((0, some .negOffset), f)
  else if f.flags.land O_ACCESS = O_RDONLY then .ok ((0, some .permission), f)
  else if f.isDir then .ok ((0, some .isADirectory), f)
  else fileWrite f p off

/-- `io.SeekStart`. -/
def seekStart : Nat := 0
/-- `io.SeekCurrent`. -/
def seekCurrent : Nat := 1
/-- `io.SeekEnd`. -/
def seekEnd : Nat := 2

/-- `file.Seek` (src/vfs/vfsfile.go:561). For `SeekCurrent` the source
guards with `offset < 0 && (f.node.Size+offset) < 0` — against the inode
size, not against the current handle offset. -/
def fileSeek (f : FileState) (offset : Int) (whence : Nat) :
    (Int × Option FsErr) × FileState :=
  if f.closed then ((0, some .closed), f)
  else if f.isDir then ((0, some .isADirectory), f)
  else if whence = seekStart then
    if offset < 0 then ((0, some .invalid), f)
    else ((offset, none), { f with offset := offset })
  else if whence = seekCurrent then
    if offset < 0 ∧ f.size + offset < 0 then ((0, some .invalid), f)
    else ((f.offset + offset, none), { f with offset := f.offset + offset })
  else if whence = seekEnd then
    ((f.size + offset, none), { f with offset := f.size + offset })
  else ((0, none), f)

/-- `file.Truncate` (src/vfs/vfsfile.go:607). Note that the source has no
check for a negative `size`: `plaintext[:int(size)]` with a negative bound is
a Go run-time panic. -/
def fileTruncate (f : FileState) (size : Int) :
    Outcome (Option FsErr × FileState) :=
  if f.closed then .ok (some .closed, f)
  else if f.flags.land O_ACCESS = O_RDONLY then .ok (some .permission, f)
  else if f.isDir then .ok (some .isADirectory, f)
  else
    let step : List Nat → Outcome (Option FsErr × FileState) :=
      fun plaintext =>
        if size ≤ f.size then
          -- plaintext = plaintext[:int(size)] — panics when size is negative
          if size < 0 ∨ (plaintext.length : Int) < size then .panicked
          else
            .ok (none, updateSize { f with ciphertext := Encrypt (plaintext.take size.toNat) })
        else
          let data := goCopy (List.replicate size.toNat 0) plaintext
          .ok (none, updateSize { f with ciphertext := Encrypt data })
    if f.size ≠ 0 then
      if f.size < 0 then .panicked  -- plaintext = make([]byte, f.node.Size)
      else
        match Decrypt f.ciphertext (List.replicate f.size.toNat 0) with
        | none => .ok (some .decryptFailed, f)
        | some plaintext => step plaintext
    else if size = 0 then .ok (none, f)  -- data is already nil, no-op
    else step []

/-- The slice-filling loop of `file.ReadDir`:
`for i, entry := range dirs[diroffset:] { if i == n { break }; infos[i] = … }`.
A `none` slot is a nil `fs.DirEntry`; writing past the end of `infos` is a Go
run-time panic (index out of range). -/
def fillInfos (infos : List (Option (String × Nat)))
    (entries : List (String × Nat)) (i n : Nat) :
    Outcome (List (Option (String × Nat))) :=
  match entries with
  | [] => .ok infos
  | e :: rest =>
    if i = n then .ok infos
    else if i < infos.length then fillInfos (infos.set i (some e)) rest (i + 1) n
    else .panicked

/-- `file.ReadDir` (src/vfs/vfsfile.go:409): batched directory enumeration.
The returned list models the `infos` slice (whose slots may remain nil). -/
def fileReadDir (f : FileState) (n : Int) :
    Outcome ((Option (List (Option (String × Nat))) × Option FsErr) × FileState) :=
  if f.closed then .ok ((none, some .closed), f)
  else if f.flags.land O_ACCESS = O_WRONLY then .ok ((none, some .permission), f)
  else if ¬ f.isDir then .ok ((none, some .notADirectory), f)
  else
    let dirs := f.dirListing
    if (dirs.length : Int) ≤ f.diroffset then
      if n ≤ 0 then .ok ((none, none), f) else .ok ((none, some .eof), f)
    else
      if n ≤ 0 ∧ dirs.length = 2 then .ok ((none, none), f)
      else
        let n1 : Int := if n ≤ 0 then (dirs.length : Int) else n
        -- skip '.' and '..' to retain compatibility with os.ReadDir
        let do2 : Int := if f.diroffset = 0 then 2 else f.diroffset
        let infosLen : Int := if n1 - do2 ≤ 0 then n1 else n1 - do2
        let infos := List.replicate infosLen.toNat (none : Option (String × Nat))
        match fillInfos infos (dirs.drop do2.toNat) 0 n1.toNat with
        | .panicked => .panicked
        | .ok filled => .ok ((some filled, none), { f with diroffset := do2 + n1 })

/-! ## The inode store (src/inode/inode.go, src/inode/pathutils.go) -/

/-- One inode record (src/inode/inode.go, `Inode`). Timestamps are not
modelled. `dir` is the ordered list of directory entries, each entry being
`(Name, Inode)` with the Go `*Inode` pointer replaced by the target's inode
number. -/
structure InodeData where
  ino : Nat
  mode : Nat
  nlink : Nat
  size : Int
  dir : List (String × Nat)
deriving DecidableEq

/-- `fs.ModeDir` (bit 31 of a Go `fs.FileMode`). -/
def ModeDir : Nat := 2 ^ 31

/-- `Inode.IsDir` (src/inode/inode.go:150). -/
def isDirN (n : InodeData) : Bool := n.mode.land ModeDir ≠ 0

/-- Zero value used when an inode number is absent from the arena (cannot
happen through the modelled operations: entries always reference live
inodes). -/
def dummyNode : InodeData := ⟨0, 0, 0, 0, []⟩

/-- The placeholder entry used for out-of-range `getD` accesses (never
reached on in-range indices). -/
def dummyEntry : String × Nat := ("", 0)

/-- Dereference an inode number in the arena (a Go pointer dereference). -/
def lookupN (a : List InodeData) (i : Nat) : InodeData :=
  (a.find? (fun nd => nd.ino == i)).getD dummyNode

/-- Mutate the inode with number `i` in place (a Go write through a pointer). -/
def modifyNode (a : List InodeData) (i : Nat) (g : InodeData → InodeData) :
    List InodeData :=
  a.map (fun nd => if nd.ino = i then g nd else nd)

/-- `Inode.countUp` (src/inode/inode.go:242): `n.Nlink++`. -/
def countUp (a : List InodeData) (i : Nat) : List InodeData :=
  modifyNode a i (fun nd => { nd with nlink := nd.nlink + 1 })

/-- `Inode.countDown` (src/inode/inode.go:247): panics when the link count is
already zero, otherwise `n.Nlink--`. -/
def countDown (a : List InodeData) (i : Nat) : Res (List InodeData) :=
  if (lookupN a i).nlink = 0 then .panicked
  else .ok (modifyNode a i (fun nd => { nd with nlink := nd.nlink - 1 }))

/-- The loop of Go's `sort.Search(n, f)` with an explicit iteration budget
(the budget `n` always suffices because `j - i` shrinks at every step). -/
def searchGo (f : Nat → Bool) : Nat → Nat → Nat → Nat
  | 0, i, _ => i
  | fuel + 1, i, j =>
    if i < j then
      let m := (i + j) / 2
      if f m then searchGo f fuel i m else searchGo f fuel (m + 1) j
    else i

/-- Go `sort.Search(n, f)`: binary search for the smallest index in `[0, n)`
at which `f` holds, assuming `f` is monotone (false then true). -/
def sortSearch (n : Nat) (f : Nat → Bool) : Nat := searchGo f n 0 n

/-- Go's `<` on strings: bytewise lexicographic comparison (on valid UTF-8 the
byte order coincides with the code-point order modelled here). -/
def goStrLt : List Char → List Char → Bool
  | [], [] => false
  | [], _ :: _ => true
  | _ :: _, [] => false
  | a :: as, b :: bs =>
    if a.toNat < b.toNat then true
    else if b.toNat < a.toNat then false
    else goStrLt as bs

/-- Go `s < t` on `String`. -/
def strLt (a b : String) : Bool := goStrLt a.toList b.toList

/-- `Inode.find` (src/inode/inode.go:281):
`sort.Search(len(n.Dir), func(i int) bool { return n.Dir[i].Name >= name })`
(`x >= y` on Go strings is `!(x < y)`). -/
def dirFind (d : List (String × Nat)) (name : String) : Nat :=
  sortSearch d.length (fun i => ! strLt (d.getD i dummyEntry).1 name)

/-- `Inode.Link` (src/inode/inode.go:85): insert a directory entry, replacing
an existing entry of the same name (`linkSwapi`, which first drops the old
target's link count) or inserting at the sorted position (`linki`). -/
def inodeLink (a : List InodeData) (nIno : Nat) (name : String) (childIno : Nat) :
    Res (List InodeData) :=
  let node := lookupN a nIno
  if ¬ isDirN node then .err .notADirectory
  else
    let x := dirFind node.dir name
    if x < node.dir.length ∧ (node.dir.getD x dummyEntry).1 = name then
      match countDown a (node.dir.getD x dummyEntry).2 with
      | .panicked => .panicked
      | .err e => .err e
      | .ok a1 =>
        let a2 := modifyNode a1 nIno
          (fun nd => { nd with dir := nd.dir.set x (name, childIno) })
        .ok (countUp a2 childIno)
    else
      let a1 := modifyNode a nIno
        (fun nd => { nd with dir := insertAt x (name, childIno) nd.dir })
      .ok (countUp a1 childIno)

/-- `Inode.Unlink` (src/inode/inode.go:108): remove a directory entry by
name (`unlinki`, which first drops the target's link count). -/
def inodeUnlink (a : List InodeData) (nIno : Nat) (name : String) :
    Res (List InodeData) :=
  let node := lookupN a nIno
  if ¬ isDirN node then .err .notADirectory
  else
    let x := dirFind node.dir name
    if x = node.dir.length ∨ (node.dir.getD x dummyEntry).1 ≠ name then .err .notExist
    else
      match countDown a (node.dir.getD x dummyEntry).2 with
      | .panicked => .panicked
      | .err e => .err e
      | .ok a1 =>
        .ok (modifyNode a1 nIno (fun nd => { nd with dir := removeAt x nd.dir }))

/-- `Ino.New` (src/inode/inode.go:53): bump the counter and allocate a fresh
zeroed inode carrying the new number. Returns (arena, counter, new ino). -/
def inoNew (a : List InodeData) (c : Nat) (mode : Nat) :
    List InodeData × Nat × Nat :=
  (a ++ [⟨c + 1, mode, 0, 0, []⟩], c + 1, c + 1)

/-- `Ino.NewDir` (src/inode/inode.go:70): allocate an inode, set the
directory bit, and seed `"."` and `".."` pointing at the new inode itself
(the source panics if either link fails). -/
def inoNewDir (a : List InodeData) (c : Nat) (mode : Nat) :
    Res (List InodeData × Nat × Nat) :=
  let p := inoNew a c mode
  let a2 := modifyNode p.1 p.2.2 (fun nd => { nd with mode := ModeDir.lor mode })
  match inodeLink a2 p.2.2 "." p.2.2 with
  | .ok a3 =>
    match inodeLink a3 p.2.2 ".." p.2.2 with
    | .ok a4 => .ok (a4, p.2.1, p.2.2)
    | _ => .panicked
  | _ => .panicked

/-! ### Path utilities

`PopPath` is src/inode/pathutils.go; the `path` package functions (`Split`,
`Clean`, `Join`, `IsAbs`) and `io/fs.ValidPath` and `strings.TrimLeft` are Go
standard library collaborators, modelled here from their documented
behaviour. Paths are handled as `List Char`. -/

/-- Split on `'/'` (Go `strings.Split(s, "/")` over the characters). -/
def splitOnSlashL : List Char → List (List Char)
  | [] => [[]]
  | c :: rest =>
    match splitOnSlashL rest with
    | [] => [[]]
    | s :: ss => if c = '/' then [] :: s :: ss else (c :: s) :: ss

/-- `path.IsAbs`: the path begins with `'/'`. -/
def isAbsS (s : String) : Bool := s.toList.headD ' ' = '/'

/-- Index of the last `'/'` (Go `strings.LastIndex(path, "/")`). -/
def lastSlashIdx (l : List Char) : Option Nat :=
  (l.reverse.findIdx? (· = '/')).map (fun j => l.length - 1 - j)

/-- `path.Split(p)`: splits after the final slash, returning `(dir, file)`. -/
def pathSplitS (s : String) : String × String :=
  let l := s.toList
  match lastSlashIdx l with
  | none => ("", s)
  | some i => (String.mk (l.take (i + 1)), String.mk (l.drop (i + 1)))

/-- The component-processing loop of Go `path.Clean`: drop empty and `"."`
components; `".."` pops a previous component, accumulates when nothing can be
popped in a relative path, and is dropped at the root of a rooted path. -/
def cleanComps (rooted : Bool) : List (List Char) → List (List Char) → List (List Char)
  | acc, [] => acc.reverse
  | acc, c :: rest =>
    if c = [] ∨ c = ['.'] then cleanComps rooted acc rest
    else if c = ['.', '.'] then
      match acc with
      | [] =>
        if rooted then cleanComps rooted [] rest
        else cleanComps rooted [c] rest
      | top :: acc2 =>
        if top = ['.', '.'] then cleanComps rooted (c :: top :: acc2) rest
        else cleanComps rooted acc2 rest
    else cleanComps rooted (c :: acc) rest

/-- Join components with `'/'`. -/
def joinSlash : List (List Char) → List Char
  | [] => []
  | [c] => c
  | c :: rest => c ++ '/' :: joinSlash rest

/-- Go `path.Clean`. -/
def pathCleanS (s : String) : String :=
  if s = "" then "."
  else
    let l := s.toList
    let rooted := l.headD ' ' = '/'
    let body := joinSlash (cleanComps rooted [] (splitOnSlashL l))
    if rooted then String.mk ('/' :: body)
    else if body = [] then "." else String.mk body

/-- Go `path.Join` of two elements: empty elements are dropped and the result
is cleaned. -/
def pathJoin (a b : String) : String :=
  if a = "" ∧ b = "" then ""
  else if a = "" then pathCleanS b
  else if b = "" then pathCleanS a
  else pathCleanS (String.mk (a.toList ++ '/' :: b.toList))

/-- `inode.Abs` (src/inode/pathutils.go:11). -/
def pathAbs (cwd name : String) : String :=
  if isAbsS name then name else pathJoin cwd name

/-- `strings.TrimLeft(s, "/")`. -/
def trimLeftSlash (s : String) : String :=
  String.mk (s.toList.dropWhile (· = '/'))

/-- `io/fs.ValidPath`: `"."` is valid, otherwise every slash-separated
element must be non-empty and distinct from `"."` and `".."`. -/
def validPathL (l : List Char) : Bool :=
  if l = ['.'] then true
  else (splitOnSlashL l).all (fun c => decide (c ≠ [] ∧ c ≠ ['.'] ∧ c ≠ ['.', '.']))

/-- `PopPath` (src/inode/pathutils.go:20): first path component and rest. -/
def popPathL (p : List Char) : List Char × List Char :=
  if p = [] then ([], [])
  else if p = ['/'] then (['/'], [])
  else
    match p.findIdx? (· = '/') with
    | none => (p, [])
    | some 0 => (['/'], p.dropWhile (· = '/'))
    | some x => (p.take x, p.drop (x + 1))

/-- `Inode.Resolve` (src/inode/inode.go:201), with an explicit recursion
budget (each recursive call strictly shrinks the path, so a budget larger
than the path length is never exhausted; exhaustion is marked `panicked`). -/
def resolveL (a : List InodeData) : Nat → Nat → List Char → Res Nat
  | 0, _, _ => .panicked
  | fuel + 1, nIno, p =>
    let q := popPathL p
    if q.1 = ['/'] then
      if q.2 = [] then .ok nIno
      else resolveL a fuel nIno q.2
    else
      let node := lookupN a nIno
      let x := dirFind node.dir (String.mk q.1)
      if x < node.dir.length ∧ (node.dir.getD x dummyEntry).1 = String.mk q.1 then
        let nn := (node.dir.getD x dummyEntry).2
        if q.2 = [] then .ok nn else resolveL a fuel nn q.2
      else .err .notExist

/-- `Inode.Resolve` on a `String` path. -/
def resolveS (a : List InodeData) (nIno : Nat) (s : String) : Res Nat :=
  resolveL a (s.toList.length + 1) nIno s.toList

/-- `Inode.Rename` (src/inode/inode.go:154), a method of the root inode:
resolve the source and its parent; if the destination resolves to a directory
fail with `Exist`; otherwise link the source under the destination's base
name (in its parent) and unlink the original entry. -/
def inodeRename (a : List InodeData) (rootIno : Nat) (oldpath newpath : String) :
    Res (List InodeData) :=
  let ps := pathSplitS oldpath
  let dir := pathCleanS ps.1
  let name := ps.2
  match resolveS a rootIno oldpath with
  | .err e => .err e
  | .panicked => .panicked
  | .ok snode =>
    match resolveS a rootIno dir with
    | .err e => .err e
    | .panicked => .panicked
    | .ok p =>
      let reSplit : Res (Nat × String) :=
        let ts := pathSplitS newpath
        match resolveS a rootIno (pathCleanS ts.1) with
        | .ok t => .ok (t, ts.2)
        | .err e2 => .err e2
        | .panicked => .panicked
      let tRes : Res (Nat × String) :=
        match resolveS a rootIno newpath with
        | .panicked => .panicked
        | .ok tnode0 =>
          if isDirN (lookupN a tnode0) then .err .exist
          else reSplit
        | .err e => if e = .notExist then reSplit else .err e
      match tRes with
      | .err e => .err e
      | .panicked => .panicked
      | .ok tr =>
        -- if len(rename) > 0 { name, rename = rename, name }
        let sw := if tr.2 ≠ "" then (tr.2, name) else (name, tr.2)
        match inodeLink a tr.1 sw.1 snode with
        | .err e => .err e
        | .panicked => .panicked
        | .ok a1 =>
          -- if len(rename) > 0 { name = rename }
          let finalName := if sw.2 ≠ "" then sw.2 else sw.1
          match inodeUnlink a1 p finalName with
          | .err e => .err e
          | .panicked => .panicked
          | .ok a2 => .ok a2

/-! ## The filesystem root (src/vfs/vfs.go, `pbFS`) -/

/-- A `*sealedFile` slot in `pbFS.data`: the ciphertext plus the registered
handle backpointer `f` (modelled as the inode number of the handle's node;
the sealed key is not modelled). -/
structure Slot where
  ciphertext : List Nat
  regF : Option Nat
deriving DecidableEq

/-- `new(sealedFile)`. -/
def emptySlot : Slot := ⟨[], none⟩

/-- The `pbFS` filesystem root (src/vfs/vfs.go:77): inode arena, allocation
counter, root and working-directory inodes, and the `data` slot table indexed
by inode number (`none` models a nil `*sealedFile` pointer). -/
structure VFS where
  arena : List InodeData
  counter : Nat
  rootIno : Nat
  cwd : String
  dirIno : Nat
  slots : List (Option Slot)
deriving DecidableEq

/-- `NewFS` (src/vfs/vfs.go:88): root directory with mode `0755`, `cwd = "/"`,
and a `data` table of length 2 (indices 0 and 1 hold nil pointers). -/
def pbNewFS : VFS :=
  match inoNewDir [] 0 0o755 with
  | .ok q => { arena := q.1, counter := q.2.1, rootIno := q.2.2, cwd := "/",
               dirIno := q.2.2, slots := [none, none] }
  | _ => { arena := [], counter := 0, rootIno := 0, cwd := "/", dirIno := 0,
           slots := [] }  -- unreachable: NewDir on a fresh inode cannot fail

/-- Snapshot of the `file` value built by `pbFS.OpenFile`. -/
def mkHandle (flag : Nat) (node : InodeData) (ct : List Nat) (offset : Int) :
    FileState :=
  { closed := false, isDir := isDirN node, flags := flag, size := node.size,
    ciphertext := ct, offset := offset, diroffset := 0, dirListing := node.dir }

/-- The tail of `pbFS.OpenFile` from `data := fs.data[int(node.Ino)]`
(src/vfs/vfs.go:223): read the slot (a Go index panic if out of range), zero
the size on truncate, apply the append-mode start offset, and register the
handle in the slot. -/
def openFinish (fs : VFS) (flag : Nat) (nodeIno : Nat)
    (appendFile trunc : Bool) : Res (FileState × VFS) :=
  if nodeIno < fs.slots.length then
    match fs.slots.getD nodeIno none with
    | none => .ok (mkHandle flag (lookupN fs.arena nodeIno) [] 0, fs)
    | some slot =>
      let arena2 := if trunc
        then modifyNode fs.arena nodeIno (fun nd => { nd with size := 0 })
        else fs.arena
      let node := lookupN arena2 nodeIno
      let off : Int := if appendFile then node.size else 0
      let slots2 := fs.slots.set nodeIno (some { slot with regF := some nodeIno })
      .ok (mkHandle flag node slot.ciphertext off,
           { fs with arena := arena2, slots := slots2 })
  else .panicked

/-- `pbFS.OpenFile` (src/vfs/vfs.go:121). `"/"` and `"."` short-circuit all
flag validation; other names are syntax-checked, resolved, and subjected to
the exclusive-create / directory-access / truncate rules. -/
def pbFSOpenFile (fs : VFS) (name : String) (flag : Nat) (perm : Nat) :
    Res (FileState × VFS) :=
  if name = "/" then
    if fs.rootIno < fs.slots.length then
      let ct := match fs.slots.getD fs.rootIno none with
        | none => [] | some slot => slot.ciphertext
      .ok (mkHandle flag (lookupN fs.arena fs.rootIno) ct 0, fs)
    else .panicked
  else
  let nameL := name.toList
  let validP := if nameL.length > 1 ∧ nameL.headD ' ' = '/'
    then validPathL (nameL.drop 1) else validPathL nameL
  if ¬ validP then .err .invalid
  else
  let appendFile := flag.land O_APPEND ≠ 0
  if name = "." then
    if fs.dirIno < fs.slots.length then
      let node := lookupN fs.arena fs.dirIno
      match fs.slots.getD fs.dirIno none with
      | none => .ok (mkHandle flag node [] 0, fs)
      | some slot =>
        let off : Int := if appendFile then node.size else 0
        let slots2 := fs.slots.set fs.dirIno (some { slot with regF := some fs.dirIno })
        .ok (mkHandle flag node slot.ciphertext off, { fs with slots := slots2 })
    else .panicked
  else
  let wd := if isAbsS name then fs.rootIno else fs.dirIno
  let resN := resolveS fs.arena wd name
  let ps := pathSplitS name
  match resolveS fs.arena wd (pathCleanS ps.1) with
  | .err e => .err e
  | .panicked => .panicked
  | .ok parentIno =>
    let access := flag.land O_ACCESS
    let create := flag.land O_CREATE ≠ 0
    let trunc := flag.land O_TRUNC ≠ 0
    match resN with
    | .panicked => .panicked
    | .ok nodeIno =>
      -- the target exists
      if create ∧ flag.land O_EXCL ≠ 0 then .err .exist
      else if isDirN (lookupN fs.arena nodeIno) ∧ (access ≠ O_RDONLY ∨ trunc) then
        .err .isADirectory
      else
        let afterTrunc : Res VFS :=
          if trunc then
            if nodeIno < fs.slots.length then
              match fs.slots.getD nodeIno none with
              | none => .panicked  -- sfile.ciphertext = nil on a nil pointer
              | some slot =>
                .ok { fs with slots :=
                        fs.slots.set nodeIno (some { slot with ciphertext := [] }) }
            else .panicked
          else .ok fs
        match afterTrunc with
        | .panicked => .panicked
        | .err e => .err e
        | .ok fs1 => openFinish fs1 flag nodeIno appendFile trunc
    | .err _ =>
      -- the target does not exist
      if ¬ create then .err .notExist
      else
        let q := inoNew fs.arena fs.counter perm
        match inodeLink q.1 parentIno ps.2 q.2.2 with
        | .panicked => .panicked
        | .err e => .err e  -- fs.ino.SubIno(): counter and arena roll back
        | .ok a2 =>
          let fs1 := { fs with
            arena := a2, counter := q.2.1, slots := fs.slots ++ [some emptySlot] }
          openFinish fs1 flag q.2.2 appendFile trunc

/-- `pbFS.Create` (src/vfs/vfs.go:245):
`OpenFile(name, O_CREATE|O_RDWR|O_TRUNC, 0644)`. -/
def pbFSCreate (fs : VFS) (name : String) : Res (FileState × VFS) :=
  pbFSOpenFile fs name ((O_CREATE.lor O_RDWR).lor O_TRUNC) 0o644

/-- `pbFS.Mkdir` (src/vfs/vfs.go:303): fail with `Exist` if the name already
resolves; resolve the parent of the cleaned absolute path; allocate a fresh
directory, link it under the base name and rebind its `".."` entry to the
parent (both `Link` return values are discarded by the source). -/
def pbFSMkdir (fs : VFS) (name : String) (perm : Nat) : Res VFS :=
  let wd := if isAbsS name then fs.rootIno else fs.dirIno
  let abs := if isAbsS name then name else pathJoin fs.cwd name
  match resolveS fs.arena wd name with
  | .ok _ => .err .exist
  | .panicked => .panicked
  | .err _ =>
    let ps := pathSplitS abs
    let dir := pathCleanS ps.1
    let parentRes : Res Nat :=
      if dir ≠ "/" then resolveS fs.arena fs.rootIno (trimLeftSlash dir)
      else .ok fs.rootIno
    match parentRes with
    | .err e => .err e
    | .panicked => .panicked
    | .ok parentIno =>
      match inoNewDir fs.arena fs.counter perm with
      | .panicked => .panicked
      | .err _ => .panicked  -- unreachable
      | .ok q =>
        let step : List InodeData → Res VFS := fun a2 =>
          match inodeLink a2 q.2.2 ".." parentIno with
          | .panicked => .panicked
          | .ok a3 => .ok { fs with
              arena := a3, counter := q.2.1, slots := fs.slots ++ [some emptySlot] }
          | .err _ => .ok { fs with
              arena := a2, counter := q.2.1, slots := fs.slots ++ [some emptySlot] }
        match inodeLink q.1 parentIno ps.2 q.2.2 with
        | .panicked => .panicked
        | .ok a2 => step a2
        | .err _ => step q.1

/-- `pbFS.Rename` (src/vfs/vfs.go:387): refuse renaming the root, make both
paths absolute against `cwd`, and delegate to `Inode.Rename` (errors are
wrapped by the source in an `os.LinkError`, which is dropped here). -/
def pbFSRename (fs : VFS) (oldpath newpath : String) : Res VFS :=
  if oldpath = "/" then .err .renameRoot
  else
    let o := if isAbsS oldpath then oldpath else pathJoin fs.cwd oldpath
    let n := if isAbsS newpath then newpath else pathJoin fs.cwd newpath
    match inodeRename fs.arena fs.rootIno o n with
    | .ok a => .ok { fs with arena := a }
    | .err e => .err e
    | .panicked => .panicked

/-- `pbFS.Truncate` (src/vfs/vfs.go:475). Note that the negative-size guard
returns the `fs.ErrClosed` sentinel, and the body works through the slot's
registered handle (`file.f`), panicking on a nil pointer. -/
def pbFSTruncate (fs : VFS) (name : String) (size : Int) : Res VFS :=
  if size < 0 then .err .closed  -- PathError{Op: "truncate", Err: fs.ErrClosed}
  else
    let p := pathAbs fs.cwd name
    match resolveS fs.arena fs.rootIno p with
    | .err e => .err e
    | .panicked => .panicked
    | .ok childIno =>
      if childIno < fs.slots.length then
        match fs.slots.getD childIno none with
        | none => .panicked  -- file.f on a nil *sealedFile
        | some slot =>
          match slot.regF with
          | none => .panicked  -- file.f is nil: no handle was registered
          | some fIno =>
            let fnode := lookupN fs.arena fIno
            let commit : List Nat → Res VFS := fun ct =>
              .ok { fs with
                    slots := fs.slots.set childIno (some { slot with ciphertext := ct }),
                    arena := modifyNode fs.arena fIno (fun nd =>
                      { nd with size := if ct.length = 0 then 0
                                        else (ct.length : Int) - (Overhead : Int) }) }
            let step : List Nat → Res VFS := fun plaintext =>
              if size ≤ fnode.size then
                if size < 0 ∨ (plaintext.length : Int) < size then .panicked
                else commit (Encrypt (plaintext.take size.toNat))
              else
                commit (Encrypt (goCopy (List.replicate size.toNat 0) plaintext))
            if fnode.size ≠ 0 then
              if fnode.size < 0 then .panicked
              else
                match Decrypt slot.ciphertext (List.replicate fnode.size.toNat 0) with
                | none => .err .decryptFailed
                | some pt => step pt
            else if size = 0 then .ok fs  -- data is already nil, no-op
            else step []
      else .panicked

/-! ## States, scenarios and invariants referenced by the claims -/

/-- The handle produced by `Create` on a fresh path: flags
`O_CREATE|O_RDWR|O_TRUNC`, a fresh regular-file inode of size 0 and an empty
sealed slot (src/vfs/vfs.go:245 and the create path of `OpenFile`). -/
def createdHandle : FileState :=
  { closed := false, isDir := false, flags := (O_CREATE.lor O_RDWR).lor O_TRUNC,
    size := 0, ciphertext := [], offset := 0, diroffset := 0, dirListing := [] }

/-- The byte string `"1....2....3....4"`. -/
def bytes1 : List Nat := [49, 46, 46, 46, 46, 50, 46, 46, 46, 46, 51, 46, 46, 46, 46, 52]

/-- The byte string `"abcdefghijklmnop"`. -/
def bytes2 : List Nat := [97, 98, 99, 100, 101, 102, 103, 104, 105, 106, 107, 108, 109, 110, 111, 112]

/-- The handle state after writing `b` to a freshly created file: contents
sealed as `Encrypt b`, size and offset `b.length`. -/
def afterWrite (b : List Nat) : FileState :=
  { createdHandle with
    ciphertext := Encrypt b, size := (b.length : Int), offset := (b.length : Int) }

/-- A fresh empty file opened with `O_APPEND|O_RDWR`. -/
def appendHandle : FileState :=
  { createdHandle with flags := O_APPEND.lor O_RDWR }

/-- A fresh empty file opened with `O_APPEND|O_CREATE` — the flags of the
source's `write_at_in_append_mode` test, whose access bits are `O_RDONLY`. -/
def apTestHandle : FileState :=
  { createdHandle with flags := O_APPEND.lor O_CREATE }

/-- A fresh empty file opened with `O_RDWR`. -/
def wHandle : FileState := { createdHandle with flags := O_RDWR }

/-- An open read-write handle on a 3-byte file whose offset sits at the end
of the file. -/
def eofHandle : FileState :=
  { createdHandle with
    flags := O_RDWR, size := 3, ciphertext := Encrypt [10, 11, 12], offset := 3 }

/-- An open read-write handle on a 5-byte file with offset 0. -/
def seekHandle : FileState :=
  { createdHandle with
    flags := O_RDWR, size := 5, ciphertext := Encrypt [1, 2, 3, 4, 5], offset := 0 }

/-- A freshly opened read-only handle on a directory with three real children
`a`, `b`, `c` besides `"."` and `".."`. -/
def dirHandle5 : FileState :=
  { closed := false, isDir := true, flags := 0, size := 0, ciphertext := [],
    offset := 0, diroffset := 0,
    dirListing := [(".", 1), ("..", 1), ("a", 2), ("b", 3), ("c", 4)] }

/-- A freshly opened read-only handle on an empty directory. -/
def emptyDirHandle : FileState :=
  { dirHandle5 with dirListing := [(".", 1), ("..", 1)] }

/-- The size/ciphertext relation of spec invariant 5: non-empty ciphertext
determines the size as `len(ciphertext) − OVERHEAD`, empty ciphertext means
size 0. -/
def sizeInv (f : FileState) : Prop :=
  (f.ciphertext.length ≠ 0 →
    f.size = (f.ciphertext.length : Int) - (Overhead : Int)) ∧
  (f.ciphertext.length = 0 → f.size = 0)

/-- Entry names strictly increasing in Go's bytewise string order: sorted and
duplicate-free. -/
def strictSorted (d : List (String × Nat)) : Prop :=
  d.Pairwise (fun e1 e2 => strLt e1.1 e2.1 = true)

/-- Directory invariant: names sorted and unique, and the `"."` / `".."`
entries present, bound to the directory itself and to its parent. -/
def dirInv (d : List (String × Nat)) (self parent : Nat) : Prop :=
  strictSorted d ∧ (".", self) ∈ d ∧ ("..", parent) ∈ d

/-- A valid directory-entry name: non-empty, without `'/'`, and not one of
the two bookkeeping entries. -/
def validName (s : String) : Bool :=
  s ≠ "" ∧ decide ('/' ∉ s.toList) ∧ s ≠ "." ∧ s ≠ ".."

/-- A namespace operation on some directory of the tree, as performed by the
inode store (`mkdir` and `rename` act on directories through these two
primitives). -/
inductive DirOp where
  | link (dirIno : Nat) (name : String) (childIno : Nat)
  | unlink (dirIno : Nat) (name : String)
deriving DecidableEq

/-- The operation's entry name is a valid name. -/
def opValid : DirOp → Bool
  | .link _ name _ => validName name
  | .unlink _ name => validName name

/-- Run one operation against the arena. -/
def applyOp (a : List InodeData) : DirOp → Res (List InodeData)
  | .link t name c => inodeLink a t name c
  | .unlink t name => inodeUnlink a t name

/-- Run a sequence of operations; an operation that fails with an error
leaves the state unchanged and the sequence continues, a panic aborts. -/
def applyOps : List InodeData → List DirOp → Res (List InodeData)
  | a, [] => .ok a
  | a, op :: ops =>
    match applyOp a op with
    | .ok a2 => applyOps a2 ops
    | .err _ => applyOps a ops
    | .panicked => .panicked

/-- The arena contains an inode numbered `i`. -/
def hasIno (a : List InodeData) (i : Nat) : Bool :=
  (a.find? (fun nd => nd.ino == i)).isSome

/-- The directory tree of the source's `TestLinkUnlinkMove` test just before
its first `Rename`: a root (ino 1) containing directories `dir00` (ino 2) and
`dir01` (ino 3) and regular files `file_0000.txt` (ino 4) and
`file_0001.txt` (ino 5). -/
def c2Arena : List InodeData :=
  match inoNewDir [] 0 0o777 with
  | .ok q =>
    match inoNewDir q.1 q.2.1 0o777 with
    | .ok q2 =>
      match inodeLink q2.1 1 "dir00" q2.2.2 with
      | .ok a =>
        match inoNewDir a q2.2.1 0o777 with
        | .ok q3 =>
          match inodeLink q3.1 1 "dir01" q3.2.2 with
          | .ok a2 =>
            let p4 := inoNew a2 q3.2.1 0o666
            match inodeLink p4.1 1 "file_0000.txt" p4.2.2 with
            | .ok a3 =>
              let p5 := inoNew a3 p4.2.1 0o666
              match inodeLink p5.1 1 "file_0001.txt" p5.2.2 with
              | .ok a4 => a4
              | _ => []
            | _ => []
          | _ => []
        | _ => []
      | _ => []
    | _ => []
  | _ => []

/-- The `TestLinkUnlinkMove` tree wrapped in a `pbFS` value. -/
def c2FS : VFS :=
  { arena := c2Arena, counter := 5, rootIno := 1, cwd := "/", dirIno := 1,
    slots := List.replicate 6 none }

/-- A root directory (ino 1) into which a regular file (ino 2) has been
linked under the name `"!"` — a valid name that sorts before `"."`. -/
def c5Arena : List InodeData :=
  match inoNewDir [] 0 0o755 with
  | .ok q =>
    let p := inoNew q.1 q.2.1 0o644
    match inodeLink p.1 q.2.2 "!" p.2.2 with
    | .ok a => a
    | _ => []
  | _ => []

/-- A fresh filesystem with one subdirectory `/d` (ino 2). -/
def fsWithD : VFS :=
  match pbFSMkdir pbNewFS "/d" 0o777 with
  | .ok fs => fs
  | _ => pbNewFS

/-- The handle state after the concrete two-write scenario of the spec:
contents `"1....2....3....4abcdefghijklmnop"`, size and offset 32. -/
def afterTwoWrites : FileState :=
  { createdHandle with
    ciphertext := Encrypt (bytes1 ++ bytes2), size := 32, offset := 32 }

/-- The handle state after writing the single byte `7` to a fresh file. -/
def c4WitState : FileState :=
  { wHandle with ciphertext := Encrypt [7], size := 1 }

instance (d : List (String × Nat)) (self parent : Nat) :
    Decidable (dirInv d self parent) := by
  unfold dirInv strictSorted
  infer_instance

instance (f : FileState) : Decidable (sizeInv f) := by
  unfold sizeInv
  infer_instance

/-- The arena after `NewDir` creates a root directory (ino 1) and its `".."`
entry is rebound (to itself, as `NewFS` leaves it). -/
def c5InitArena : List InodeData :=
  match inoNewDir [] 0 0o755 with
  | .ok q =>
    match inodeLink q.1 q.2.2 ".." 1 with
    | .ok a => a
    | _ => []
  | _ => []

/-- `c5InitArena` after linking a file numbered 2 under the valid name `"!"`,
which sorts before `"."`. -/
def c5OpsArena : List InodeData :=
  match applyOps c5InitArena [DirOp.link 1 "!" 2] with
  | .ok a => a
  | _ => []

end PBox

/-! ## Helper lemmas -/

namespace PBox

theorem goCopy_nil_right (dst : List Nat) : goCopy dst [] = dst := by
  simp [goCopy]

theorem goCopy_length_eq (dst src : List Nat) (h : dst.length = src.length) :
    goCopy dst src = src := by
  simp [goCopy, h, List.drop_length]

theorem write_fresh (b : List Nat) :
    fileWrite createdHandle b 0 =
      .ok ((b.length, none),
        { createdHandle with ciphertext := Encrypt b, size := (b.length : Int) }) := by
  by_cases hb : b = []
  · subst hb; rfl
  · have hl : 0 < b.length := List.length_pos.mpr hb
    simp only [fileWrite, createdHandle]
    norm_num
    rw [if_neg (by decide)]
    simp only [if_pos hl, goCopy_nil_right]
    rw [goCopy_length_eq _ _ (by simp)]
    simp [updateSize, Encrypt, Overhead]

theorem read_back (b : List Nat) :
    fileReadOp { afterWrite b with offset := 0 } (List.replicate b.length 0) =
      .ok ((b, b.length, none), afterWrite b) := by
  by_cases hb : b = []
  · subst hb; rfl
  · have hl : 0 < b.length := List.length_pos.mpr hb
    have hl2 : ¬ ((b.length : Int) ≤ 0) := by exact_mod_cast Nat.not_le.mpr hl
    simp only [fileReadOp, fileRead, afterWrite, createdHandle, Decrypt, Encrypt]
    norm_num [hl.ne.symm, hl2]
    rw [if_neg (by decide)]
    have h1 : goCopy (List.replicate b.length 0) b = b := goCopy_length_eq _ _ (by simp)
    have h2 : ¬ ((b.length : Int) < 0) := by omega
    simp only [h1]
    simp [h2]

theorem writeOp_fresh (b : List Nat) :
    fileWriteOp createdHandle b = .ok ((b.length, none), afterWrite b) := by
  have hw : createdHandle.offset = 0 := rfl
  simp only [fileWriteOp, hw, write_fresh b]
  simp [afterWrite]

theorem sizeInv_updateSize (f : FileState) : sizeInv (updateSize f) := by
  unfold sizeInv updateSize
  split_ifs with h <;> simp [h]

theorem char_toNat_inj {a b : Char} (h : a.toNat = b.toNat) : a = b := by
  cases a; cases b
  simp only [Char.toNat] at h
  congr 1
  exact UInt32.toNat.inj h

theorem goStrLt_irrefl (a : List Char) : goStrLt a a = false := by
  induction a with
  | nil => rfl
  | cons c cs ih => simp [goStrLt, ih]

theorem goStrLt_trans {a b c : List Char} (h1 : goStrLt a b = true)
    (h2 : goStrLt b c = true) : goStrLt a c = true := by
  induction a generalizing b c with
  | nil =>
    cases b with
    | nil => simp [goStrLt] at h1
    | cons bh bs =>
      cases c with
      | nil => simp [goStrLt] at h2
      | cons ch cs => simp [goStrLt]
  | cons ah as ih =>
    cases b with
    | nil => simp [goStrLt] at h1
    | cons bh bs =>
      cases c with
      | nil => simp [goStrLt] at h2
      | cons ch cs =>
        simp only [goStrLt] at h1 h2 ⊢
        by_cases hab : ah.toNat < bh.toNat <;> by_cases hba : bh.toNat < ah.toNat <;>
          by_cases hbc : bh.toNat < ch.toNat <;> by_cases hcb : ch.toNat < bh.toNat <;>
          simp_all <;>
          first
            | omega
            | (have hx : ah.toNat < ch.toNat := by omega; simp [hx])
            | (have hx1 : ¬ ah.toNat < ch.toNat := by omega
               have hx2 : ¬ ch.toNat < ah.toNat := by omega
               simp [hx1, hx2]
               first
                 | exact ih h1 h2
                 | exact ⟨by omega, ih h1 h2⟩)

theorem goStrLt_conn {a b : List Char} (h1 : goStrLt a b = false)
    (h2 : goStrLt b a = false) : a = b := by
  induction a generalizing b with
  | nil =>
    cases b with
    | nil => rfl
    | cons bh bs => simp [goStrLt] at h1
  | cons ah as ih =>
    cases b with
    | nil => simp [goStrLt] at h2
    | cons bh bs =>
      simp only [goStrLt] at h1 h2
      by_cases hab : ah.toNat < bh.toNat <;> by_cases hba : bh.toNat < ah.toNat <;> simp_all
      all_goals (have hq : ah = bh := char_toNat_inj (by omega); subst hq)
      all_goals exact ⟨rfl, ih h1 h2⟩

theorem strLt_trans {a b c : String} (h1 : strLt a b = true) (h2 : strLt b c = true) :
    strLt a c = true := goStrLt_trans h1 h2

theorem strLt_conn {a b : String} (h1 : strLt a b = false) (h2 : strLt b a = false) :
    a = b := by
  have h := goStrLt_conn h1 h2
  cases a; cases b
  simp only [String.toList] at h
  rw [h]

theorem searchGo_spec (f : Nat → Bool) (n : Nat) :
    ∀ fuel i j, j - i ≤ fuel → i ≤ j → j ≤ n →
    (∀ k, k < i → f k = false) →
    (∀ k, j ≤ k → k < n → f k = true) →
    (∀ k l, k ≤ l → l < n → f k = true → f l = true) →
    i ≤ searchGo f fuel i j ∧ searchGo f fuel i j ≤ j ∧
    (∀ k, k < searchGo f fuel i j → f k = false) ∧
    (searchGo f fuel i j < n → f (searchGo f fuel i j) = true) := by
  intro fuel
  induction fuel with
  | zero =>
    intro i j hf hij hjn hlow hhigh _
    have hij2 : i = j := by omega
    subst hij2
    exact ⟨le_refl i, le_refl i, hlow, fun h => hhigh i (le_refl i) h⟩
  | succ fuel ih =>
    intro i j hf hij hjn hlow hhigh hmono
    simp only [searchGo]
    by_cases hlt : i < j
    · rw [if_pos hlt]
      have hm1 : i ≤ (i + j) / 2 := by omega
      have hm2 : (i + j) / 2 < j := by omega
      by_cases hfm : f ((i + j) / 2) = true
      · rw [if_pos hfm]
        have hhigh2 : ∀ k, (i + j) / 2 ≤ k → k < n → f k = true :=
          fun k hk hkn => hmono _ _ hk hkn hfm
        have h := ih i ((i + j) / 2) (by omega) hm1 (by omega) hlow hhigh2 hmono
        exact ⟨h.1, le_trans h.2.1 (le_of_lt hm2), h.2.2⟩
      · rw [if_neg hfm]
        have hlow2 : ∀ k, k < (i + j) / 2 + 1 → f k = false := by
          intro k hk
          by_contra hc
          have : f ((i + j) / 2) = true :=
            hmono k _ (by omega) (by omega) (by simpa using hc)
          exact hfm this
        have h := ih ((i + j) / 2 + 1) j (by omega) (by omega) hjn hlow2 hhigh hmono
        exact ⟨le_trans (by omega) h.1, h.2.1, h.2.2⟩
    · rw [if_neg hlt]
      have hij2 : i = j := by omega
      subst hij2
      exact ⟨le_refl i, le_refl i, hlow, fun h => hhigh i (le_refl i) h⟩

theorem searchGo_le (f : Nat → Bool) :
    ∀ fuel i j, i ≤ j → searchGo f fuel i j ≤ j := by
  intro fuel
  induction fuel with
  | zero => intro i j h; simpa [searchGo] using h
  | succ fuel ih =>
    intro i j h
    simp only [searchGo]
    by_cases hlt : i < j
    · rw [if_pos hlt]
      by_cases hf : f ((i + j) / 2) = true
      · rw [if_pos hf]
        exact le_trans (ih i ((i + j) / 2) (by omega)) (by omega)
      · rw [if_neg hf]
        exact ih ((i + j) / 2 + 1) j (by omega)
    · rw [if_neg hlt]
      exact h

theorem dirFind_le (d : List (String × Nat)) (name : String) :
    dirFind d name ≤ d.length :=
  searchGo_le _ _ 0 d.length (by omega)

theorem getD_eq_get (l : List α) (e : α) (k : Nat) (h : k < l.length) :
    l.getD k e = l.get ⟨k, h⟩ := by
  simp [List.getD_eq_getElem?_getD, List.getElem?_eq_getElem h]

theorem strictSorted_get {d : List (String × Nat)} (hs : strictSorted d)
    {k l : Nat} (hkl : k < l) (hl : l < d.length) :
    strLt (d.get ⟨k, by omega⟩).1 (d.get ⟨l, hl⟩).1 = true := by
  have := List.pairwise_iff_get.mp hs ⟨k, by omega⟩ ⟨l, hl⟩ hkl
  exact this

theorem dirFind_spec (d : List (String × Nat)) (name : String) (hs : strictSorted d) :
    dirFind d name ≤ d.length ∧
    (∀ k (hk : k < d.length), k < dirFind d name →
      strLt (d.get ⟨k, hk⟩).1 name = true) ∧
    ((h : dirFind d name < d.length) →
      strLt (d.get ⟨dirFind d name, h⟩).1 name = false) := by
  have hmono : ∀ k l, k ≤ l → l < d.length →
      (fun i => ! strLt (d.getD i dummyEntry).1 name) k = true →
      (fun i => ! strLt (d.getD i dummyEntry).1 name) l = true := by
    intro k l hkl hl hk
    simp only [Bool.not_eq_true'] at hk ⊢
    rcases Nat.eq_or_lt_of_le hkl with rfl | hlt
    · exact hk
    · rw [getD_eq_get d dummyEntry l hl] at *
      rw [getD_eq_get d dummyEntry k (by omega)] at hk
      by_contra hc
      have hlt2 := strictSorted_get hs hlt hl
      have := strLt_trans hlt2 (by simpa using hc)
      rw [hk] at this
      exact Bool.false_ne_true this
  have h := searchGo_spec (fun i => ! strLt (d.getD i dummyEntry).1 name) d.length
    d.length 0 d.length (by omega) (by omega) (le_refl _)
    (by intro k hk; omega)
    (by intro k hk hkn; omega)
    hmono
  simp only [dirFind, sortSearch]
  refine ⟨h.2.1, ?_, ?_⟩
  · intro k hk hlt
    have := h.2.2.1 k hlt
    simp only [Bool.not_eq_false'] at this
    rw [getD_eq_get d dummyEntry k hk] at this
    simpa using this
  · intro hlt
    have := h.2.2.2 hlt
    simp only [Bool.not_eq_true'] at this
    rw [getD_eq_get d dummyEntry _ hlt] at this
    simpa using this

theorem strictSorted_set (d : List (String × Nat)) (x : Nat) (c : Nat) (name : String)
    (hs : strictSorted d) (hx : x < d.length) (hn : (d.get ⟨x, hx⟩).1 = name) :
    strictSorted (d.set x (name, c)) := by
  unfold strictSorted at *
  rw [List.pairwise_iff_get] at hs ⊢
  intro i j hij
  have hgi : ∀ (k : Fin (d.set x (name, c)).length),
      ((d.set x (name, c)).get k).1 = (d.get ⟨k, by have := k.2; simpa using this⟩).1 := by
    intro k
    simp only [List.get_eq_getElem, List.getElem_set]
    split
    · next h =>
      simp only [List.get_eq_getElem] at hn
      show name = d[(k : Nat)].1
      simp only [← h]
      exact hn.symm
    · rfl
  rw [hgi i, hgi j]
  have hii := i.2
  have hjj := j.2
  simp only [List.length_set] at hii hjj
  exact hs ⟨i, hii⟩ ⟨j, hjj⟩ hij

theorem strictSorted_insertAt (d : List (String × Nat)) (x : Nat) (name : String) (c : Nat)
    (hs : strictSorted d) (hx : x ≤ d.length)
    (hlow : ∀ k (hk : k < d.length), k < x → strLt (d.get ⟨k, hk⟩).1 name = true)
    (hhigh : ∀ k (hk : k < d.length), x ≤ k → strLt name (d.get ⟨k, hk⟩).1 = true) :
    strictSorted (insertAt x (name, c) d) := by
  unfold strictSorted insertAt at *
  rw [List.pairwise_append]
  refine ⟨hs.sublist (List.take_sublist x d), ?_, ?_⟩
  · rw [List.pairwise_cons]
    constructor
    · intro b hb
      obtain ⟨⟨k, hk⟩, hbk⟩ := List.mem_iff_get.mp hb
      subst hbk
      simp only [List.get_eq_getElem, List.getElem_drop]
      have hk2 : x + k < d.length := by simp at hk; omega
      exact hhigh (x + k) hk2 (by omega)
    · exact hs.sublist (List.drop_sublist x d)
  · intro a ha b hb
    obtain ⟨⟨k, hk⟩, hak⟩ := List.mem_iff_get.mp ha
    subst hak
    have hk2 : k < d.length := by
      have := hk; simp at this; omega
    have hkx : k < x := by have := hk; simp at this; omega
    simp only [List.get_eq_getElem, List.getElem_take]
    rcases List.mem_cons.mp hb with rfl | hb2
    · exact hlow k hk2 hkx
    · obtain ⟨⟨m, hm⟩, hbm⟩ := List.mem_iff_get.mp hb2
      subst hbm
      simp only [List.get_eq_getElem, List.getElem_drop]
      have hm2 : x + m < d.length := by simp at hm; omega
      have := List.pairwise_iff_get.mp hs ⟨k, hk2⟩ ⟨x + m, hm2⟩ (by simp; omega)
      simpa using this

theorem removeAt_sublist (d : List (String × Nat)) (x : Nat) :
    List.Sublist (removeAt x d) d := by
  unfold removeAt
  conv_rhs => rw [← List.take_append_drop x d]
  apply List.Sublist.append (List.Sublist.refl _)
  rw [← List.tail_drop]
  exact List.tail_sublist _

theorem strictSorted_removeAt (d : List (String × Nat)) (x : Nat)
    (hs : strictSorted d) : strictSorted (removeAt x d) :=
  hs.sublist (removeAt_sublist d x)

theorem mem_set_of_ne (d : List (String × Nat)) (x : Nat) (e v : String × Nat)
    (hv : v ∈ d)
    (hne : ∀ (hx : x < d.length), (d.get ⟨x, hx⟩).1 ≠ v.1) :
    v ∈ d.set x e := by
  obtain ⟨⟨k, hk⟩, hvk⟩ := List.mem_iff_get.mp hv
  have hkx : k ≠ x := by
    intro h
    subst h
    exact hne hk (by rw [hvk])
  rw [List.mem_iff_get]
  refine ⟨⟨k, by simpa using hk⟩, ?_⟩
  simp only [List.get_eq_getElem, List.getElem_set]
  rw [if_neg (by omega)]
  simpa using hvk

theorem mem_insertAt (d : List (String × Nat)) (x : Nat) (e v : String × Nat)
    (hv : v ∈ d) : v ∈ insertAt x e d := by
  unfold insertAt
  conv at hv => rw [← List.take_append_drop x d]
  rcases List.mem_append.mp hv with h | h
  · exact List.mem_append.mpr (Or.inl h)
  · exact List.mem_append.mpr (Or.inr (List.mem_cons_of_mem _ h))

theorem mem_removeAt (d : List (String × Nat)) (x : Nat) (v : String × Nat)
    (hv : v ∈ d) (hx : x < d.length) (hne : (d.get ⟨x, hx⟩).1 ≠ v.1) :
    v ∈ removeAt x d := by
  obtain ⟨⟨k, hk⟩, hvk⟩ := List.mem_iff_get.mp hv
  have hkx : k ≠ x := by
    intro h
    subst h
    exact hne (by rw [hvk])
  unfold removeAt
  rw [List.mem_append]
  by_cases hlt : k < x
  · left
    rw [List.mem_iff_get]
    refine ⟨⟨k, by simp; omega⟩, ?_⟩
    simp only [List.get_eq_getElem, List.getElem_take]
    simpa using hvk
  · right
    rw [List.mem_iff_get]
    have hk2 : k - (x + 1) < (d.drop (x + 1)).length := by simp; omega
    refine ⟨⟨k - (x + 1), hk2⟩, ?_⟩
    simp only [List.get_eq_getElem, List.getElem_drop]
    have he : x + 1 + (k - (x + 1)) = k := by omega
    simp only [he]
    simpa using hvk

theorem find?_modifyNode (a : List InodeData) (i j : Nat) (g : InodeData → InodeData)
    (hg : ∀ nd, (g nd).ino = nd.ino) :
    (modifyNode a i g).find? (fun nd => nd.ino == j) =
      ((a.find? (fun nd => nd.ino == j)).map (fun nd => if nd.ino = i then g nd else nd)) := by
  unfold modifyNode
  rw [List.find?_map]
  have hfun : ((fun nd => nd.ino == j) ∘ fun nd => if nd.ino = i then g nd else nd)
      = (fun nd : InodeData => nd.ino == j) := by
    funext nd
    simp only [Function.comp]
    by_cases h : nd.ino = i
    · simp [h, hg nd]
    · simp [h]
  rw [hfun]

theorem lookupN_modify_other (a : List InodeData) (i j : Nat) (g : InodeData → InodeData)
    (hg : ∀ nd, (g nd).ino = nd.ino) (hij : i ≠ j) :
    lookupN (modifyNode a i g) j = lookupN a j := by
  unfold lookupN
  rw [find?_modifyNode a i j g hg]
  cases hf : a.find? (fun nd => nd.ino == j) with
  | none => rfl
  | some x =>
    have hx := @List.find?_some _ (fun nd => nd.ino == j) x a hf
    have : x.ino ≠ i := by
      simp at hx
      omega
    simp [this]

theorem lookupN_modify_self (a : List InodeData) (i : Nat) (g : InodeData → InodeData)
    (hg : ∀ nd, (g nd).ino = nd.ino) (hp : hasIno a i = true) :
    lookupN (modifyNode a i g) i = g (lookupN a i) := by
  unfold lookupN
  rw [find?_modifyNode a i i g hg]
  unfold hasIno at hp
  cases hf : a.find? (fun nd => nd.ino == i) with
  | none => rw [hf] at hp; simp at hp
  | some x =>
    have hx := @List.find?_some _ (fun nd => nd.ino == i) x a hf
    have : x.ino = i := by simpa using hx
    simp [this]

theorem lookupN_modify_dir (a : List InodeData) (i j : Nat) (g : InodeData → InodeData)
    (hg : ∀ nd, (g nd).ino = nd.ino ∧ (g nd).dir = nd.dir) :
    (lookupN (modifyNode a i g) j).dir = (lookupN a j).dir := by
  unfold lookupN
  rw [find?_modifyNode a i j g (fun nd => (hg nd).1)]
  cases hf : a.find? (fun nd => nd.ino == j) with
  | none => rfl
  | some x =>
    by_cases h : x.ino = i
    · simp [h, (hg x).2]
    · simp [h]

theorem hasIno_modify (a : List InodeData) (i j : Nat) (g : InodeData → InodeData)
    (hg : ∀ nd, (g nd).ino = nd.ino) :
    hasIno (modifyNode a i g) j = hasIno a j := by
  unfold hasIno
  rw [find?_modifyNode a i j g hg]
  cases a.find? (fun nd => nd.ino == j) <;> rfl

theorem countUp_dir (a : List InodeData) (i j : Nat) :
    (lookupN (countUp a i) j).dir = (lookupN a j).dir :=
  lookupN_modify_dir a i j _ (fun _ => ⟨rfl, rfl⟩)

theorem countUp_hasIno (a : List InodeData) (i j : Nat) :
    hasIno (countUp a i) j = hasIno a j :=
  hasIno_modify a i j _ (fun _ => rfl)

theorem countDown_ok (a a1 : List InodeData) (i : Nat) (h : countDown a i = .ok a1) :
    a1 = modifyNode a i (fun nd => { nd with nlink := nd.nlink - 1 }) := by
  unfold countDown at h
  split_ifs at h
  exact (Res.ok.inj h).symm

theorem countDown_dir (a a1 : List InodeData) (i j : Nat) (h : countDown a i = .ok a1) :
    (lookupN a1 j).dir = (lookupN a j).dir := by
  rw [countDown_ok a a1 i h]
  exact lookupN_modify_dir a i j _ (fun _ => ⟨rfl, rfl⟩)

theorem countDown_hasIno (a a1 : List InodeData) (i j : Nat) (h : countDown a i = .ok a1) :
    hasIno a1 j = hasIno a j := by
  rw [countDown_ok a a1 i h]
  exact hasIno_modify a i j _ (fun _ => rfl)

theorem strLt_of_found_ne (D : List (String × Nat)) (name : String)
    (hs : strictSorted D)
    (hmiss : ¬ (dirFind D name < D.length ∧
      (D.getD (dirFind D name) dummyEntry).1 = name)) :
    ∀ k (hk : k < D.length), dirFind D name ≤ k →
      strLt name (D.get ⟨k, hk⟩).1 = true := by
  have hspec := dirFind_spec D name hs
  have hbase : ∀ (hxlt : dirFind D name < D.length),
      strLt name (D.get ⟨dirFind D name, hxlt⟩).1 = true := by
    intro hxlt
    have hfalse := hspec.2.2 hxlt
    cases hq : strLt name (D.get ⟨dirFind D name, hxlt⟩).1 with
    | true => rfl
    | false =>
      have heq2 := strLt_conn hfalse hq
      exact absurd ⟨hxlt, by rw [getD_eq_get _ dummyEntry _ hxlt]; exact heq2⟩ hmiss
  intro k hk hxk
  rcases Nat.eq_or_lt_of_le hxk with heq | hlt
  · have hb := hbase (by omega)
    simp only [← heq] at *
    exact hb
  · exact strLt_trans (hbase (by omega)) (strictSorted_get hs hlt hk)

theorem dirInv_set_found (D : List (String × Nat)) (name : String) (c self parent : Nat)
    (hinv : dirInv D self parent) (hn1 : name ≠ ".") (hn2 : name ≠ "..")
    (hx : dirFind D name < D.length)
    (hname : (D.getD (dirFind D name) dummyEntry).1 = name) :
    dirInv (D.set (dirFind D name) (name, c)) self parent := by
  obtain ⟨hs, hdot, hddot⟩ := hinv
  rw [getD_eq_get _ dummyEntry _ hx] at hname
  refine ⟨strictSorted_set _ _ _ _ hs hx hname, ?_, ?_⟩
  · exact mem_set_of_ne _ _ _ _ hdot
      (fun hx2 => by rw [show hx2 = hx from rfl] at *; rw [hname]; exact fun hcon => hn1 (by simpa using hcon))
  · exact mem_set_of_ne _ _ _ _ hddot
      (fun hx2 => by rw [show hx2 = hx from rfl] at *; rw [hname]; exact fun hcon => hn2 (by simpa using hcon))

theorem dirInv_insert_valid (D : List (String × Nat)) (name : String) (c self parent : Nat)
    (hinv : dirInv D self parent)
    (hmiss : ¬ (dirFind D name < D.length ∧
      (D.getD (dirFind D name) dummyEntry).1 = name)) :
    dirInv (insertAt (dirFind D name) (name, c) D) self parent := by
  obtain ⟨hs, hdot, hddot⟩ := hinv
  have hspec := dirFind_spec D name hs
  refine ⟨strictSorted_insertAt D _ name c hs hspec.1
      (fun k hk hkx => hspec.2.1 k hk hkx)
      (strLt_of_found_ne D name hs hmiss), ?_, ?_⟩
  · exact mem_insertAt _ _ _ _ hdot
  · exact mem_insertAt _ _ _ _ hddot

theorem dirInv_remove_found (D : List (String × Nat)) (name : String) (self parent : Nat)
    (hinv : dirInv D self parent) (hn1 : name ≠ ".") (hn2 : name ≠ "..")
    (hx : dirFind D name < D.length)
    (hname : (D.getD (dirFind D name) dummyEntry).1 = name) :
    dirInv (removeAt (dirFind D name) D) self parent := by
  obtain ⟨hs, hdot, hddot⟩ := hinv
  rw [getD_eq_get _ dummyEntry _ hx] at hname
  refine ⟨strictSorted_removeAt _ _ hs, ?_, ?_⟩
  · exact mem_removeAt _ _ _ hdot hx (by rw [hname]; exact fun hcon => hn1 (by simpa using hcon))
  · exact mem_removeAt _ _ _ hddot hx (by rw [hname]; exact fun hcon => hn2 (by simpa using hcon))

theorem inodeLink_dirInv (a a2 : List InodeData) (t : Nat) (name : String) (c dIno parent : Nat)
    (h : inodeLink a t name c = .ok a2)
    (hp : hasIno a dIno = true)
    (hn1 : name ≠ ".") (hn2 : name ≠ "..")
    (hinv : dirInv (lookupN a dIno).dir dIno parent) :
    dirInv (lookupN a2 dIno).dir dIno parent ∧ hasIno a2 dIno = true := by
  simp only [inodeLink] at h
  split_ifs at h with hdir hhit
  · -- hit branch: linkSwapi replaces the entry at the found index
    split at h
    · exact absurd h (by simp)
    · exact absurd h (by simp)
    · next a1 hcd =>
      obtain rfl := Res.ok.inj h
      have hp1 : hasIno a1 dIno = true := by
        rw [countDown_hasIno _ _ _ _ hcd]; exact hp
      have hD : (lookupN a1 dIno).dir = (lookupN a dIno).dir :=
        countDown_dir _ _ _ _ hcd
      constructor
      · rw [countUp_dir]
        by_cases ht : t = dIno
        · subst ht
          rw [lookupN_modify_self _ _ _ (by intro nd; rfl) hp1]
          simp only [hD]
          exact dirInv_set_found _ name c t parent hinv hn1 hn2 hhit.1 hhit.2
        · rw [lookupN_modify_other _ _ _ _ (by intro nd; rfl) ht, hD]
          exact hinv
      · rw [countUp_hasIno, hasIno_modify _ _ _ _ (by intro nd; rfl),
            countDown_hasIno _ _ _ _ hcd]
        exact hp
  · -- miss branch: linki inserts at the found index
    obtain rfl := Res.ok.inj h
    constructor
    · rw [countUp_dir]
      by_cases ht : t = dIno
      · subst ht
        rw [lookupN_modify_self _ _ _ (by intro nd; rfl) hp]
        exact dirInv_insert_valid _ name c t parent hinv hhit
      · rw [lookupN_modify_other _ _ _ _ (by intro nd; rfl) ht]
        exact hinv
    · rw [countUp_hasIno, hasIno_modify _ _ _ _ (by intro nd; rfl)]
      exact hp

theorem inodeUnlink_dirInv (a a2 : List InodeData) (t : Nat) (name : String) (dIno parent : Nat)
    (h : inodeUnlink a t name = .ok a2)
    (hp : hasIno a dIno = true)
    (hn1 : name ≠ ".") (hn2 : name ≠ "..")
    (hinv : dirInv (lookupN a dIno).dir dIno parent) :
    dirInv (lookupN a2 dIno).dir dIno parent ∧ hasIno a2 dIno = true := by
  simp only [inodeUnlink] at h
  split_ifs at h with hdir hmiss
  split at h
  · exact absurd h (by simp)
  · exact absurd h (by simp)
  · next a1 hcd =>
    obtain rfl := Res.ok.inj h
    have hp1 : hasIno a1 dIno = true := by
      rw [countDown_hasIno _ _ _ _ hcd]; exact hp
    have hD : (lookupN a1 dIno).dir = (lookupN a dIno).dir :=
      countDown_dir _ _ _ _ hcd
    have hfound : dirFind (lookupN a t).dir name < (lookupN a t).dir.length ∧
        ((lookupN a t).dir.getD (dirFind (lookupN a t).dir name) dummyEntry).1 = name := by
      rcases Nat.lt_or_ge (dirFind (lookupN a t).dir name) (lookupN a t).dir.length with hlt | hge
      · refine ⟨hlt, ?_⟩
        by_contra hne
        exact hmiss (Or.inr hne)
      · exfalso
        have hle := dirFind_le (lookupN a t).dir name
        exact hmiss (Or.inl (by omega))
    constructor
    · by_cases ht : t = dIno
      · subst ht
        rw [lookupN_modify_self _ _ _ (by intro nd; rfl) hp1]
        simp only [hD]
        exact dirInv_remove_found _ name t parent hinv hn1 hn2 hfound.1 hfound.2
      · rw [lookupN_modify_other _ _ _ _ (by intro nd; rfl) ht, hD]
        exact hinv
    · rw [hasIno_modify _ _ _ _ (by intro nd; rfl), countDown_hasIno _ _ _ _ hcd]
      exact hp

theorem applyOps_dirInv (dIno parent : Nat) (ops : List DirOp) :
    ∀ a a2, hasIno a dIno = true →
    (∀ op ∈ ops, opValid op = true) →
    dirInv (lookupN a dIno).dir dIno parent →
    applyOps a ops = .ok a2 →
    dirInv (lookupN a2 dIno).dir dIno parent := by
  induction ops with
  | nil =>
    intro a a2 hp hv hinv h
    simp only [applyOps] at h
    obtain rfl := Res.ok.inj h
    exact hinv
  | cons op ops ih =>
    intro a a2 hp hv hinv h
    have hvtail : ∀ op2 ∈ ops, opValid op2 = true :=
      fun op2 hm => hv op2 (List.mem_cons_of_mem _ hm)
    have hval := hv op (List.mem_cons_self _ _)
    cases op with
    | link t name c =>
      simp only [applyOps, applyOp] at h
      simp only [opValid, validName, decide_eq_true_eq] at hval
      cases hop : inodeLink a t name c with
      | ok a1 =>
        rw [hop] at h
        have hstep := inodeLink_dirInv a a1 t name c dIno parent hop hp
          hval.2.2.1 hval.2.2.2 hinv
        exact ih a1 a2 hstep.2 hvtail hstep.1 h
      | err e =>
        rw [hop] at h
        exact ih a a2 hp hvtail hinv h
      | panicked =>
        rw [hop] at h
        simp at h
    | unlink t name =>
      simp only [applyOps, applyOp] at h
      simp only [opValid, validName, decide_eq_true_eq] at hval
      cases hop : inodeUnlink a t name with
      | ok a1 =>
        rw [hop] at h
        have hstep := inodeUnlink_dirInv a a1 t name dIno parent hop hp
          hval.2.2.1 hval.2.2.2 hinv
        exact ih a1 a2 hstep.2 hvtail hstep.1 h
      | err e =>
        rw [hop] at h
        exact ih a a2 hp hvtail hinv h
      | panicked =>
        rw [hop] at h
        simp at h

theorem lookupN_append_fresh (a0 : List InodeData) (nd : InodeData)
    (hfresh : ∀ x ∈ a0, x.ino ≠ nd.ino) :
    lookupN (a0 ++ [nd]) nd.ino = nd := by
  unfold lookupN
  induction a0 with
  | nil => simp [List.find?]
  | cons x rest ih =>
    have hx : (x.ino == nd.ino) = false := by
      simp
      exact hfresh x (List.mem_cons_self _ _)
    simp only [List.cons_append, List.find?]
    rw [hx]
    exact ih (fun y hy => hfresh y (List.mem_cons_of_mem _ hy))

theorem hasIno_append_fresh (a0 : List InodeData) (nd : InodeData) :
    hasIno (a0 ++ [nd]) nd.ino = true := by
  unfold hasIno
  induction a0 with
  | nil => simp [List.find?]
  | cons x rest ih =>
    simp only [List.cons_append, List.find?]
    cases hx : (x.ino == nd.ino) with
    | true => rfl
    | false => exact ih

theorem modifyNode_append_fresh (a0 : List InodeData) (nd : InodeData)
    (g : InodeData → InodeData)
    (hfresh : ∀ x ∈ a0, x.ino ≠ nd.ino) :
    modifyNode (a0 ++ [nd]) nd.ino g = a0 ++ [g nd] := by
  unfold modifyNode
  rw [List.map_append]
  congr 1
  · induction a0 with
    | nil => rfl
    | cons x rest ih =>
      simp only [List.map_cons]
      rw [if_neg (hfresh x (List.mem_cons_self _ _))]
      rw [ih (fun y hy => hfresh y (List.mem_cons_of_mem _ hy))]
  · rw [List.map_cons, List.map_nil, if_pos rfl]

theorem modeDirLor_isDir (m : Nat) : (ModeDir.lor m).land ModeDir ≠ 0 := by
  intro h
  unfold ModeDir at h
  change ((2 ^ 31 ||| m) &&& 2 ^ 31) = 0 at h
  have h31 := congrArg (fun x => x.testBit 31) h
  simp only [Nat.testBit_and, Nat.testBit_or, Nat.zero_testBit] at h31
  rw [Nat.testBit_two_pow_self] at h31
  simp at h31

theorem newDir_step1 (a0 : List InodeData) (c0 mode : Nat)
    (hfresh : ∀ nd ∈ a0, nd.ino ≠ c0 + 1) :
    inodeLink (a0 ++ [⟨c0 + 1, ModeDir.lor mode, 0, 0, []⟩]) (c0 + 1) "." (c0 + 1) =
      .ok (a0 ++ [⟨c0 + 1, ModeDir.lor mode, 1, 0, [(".", c0 + 1)]⟩]) := by
  have hlook : lookupN (a0 ++ [⟨c0 + 1, ModeDir.lor mode, 0, 0, []⟩]) (c0 + 1) =
      ⟨c0 + 1, ModeDir.lor mode, 0, 0, []⟩ :=
    lookupN_append_fresh a0 _ (fun x hx => hfresh x hx)
  have hisdir : isDirN (⟨c0 + 1, ModeDir.lor mode, 0, 0, []⟩ : InodeData) = true := by
    simp only [isDirN, decide_eq_true_eq]
    exact modeDirLor_isDir mode
  simp only [inodeLink, hlook, hisdir]
  rw [if_neg (by simp)]
  rw [if_neg (by simp [dirFind, sortSearch, searchGo])]
  rw [modifyNode_append_fresh a0 _ _ (fun x hx => hfresh x hx)]
  unfold countUp
  rw [modifyNode_append_fresh a0 _ _ (fun x hx => hfresh x hx)]
  simp [dirFind, sortSearch, searchGo, insertAt]

theorem newDir_step2 (a0 : List InodeData) (c0 mode : Nat)
    (hfresh : ∀ nd ∈ a0, nd.ino ≠ c0 + 1) :
    inodeLink (a0 ++ [⟨c0 + 1, ModeDir.lor mode, 1, 0, [(".", c0 + 1)]⟩]) (c0 + 1)
      ".." (c0 + 1) =
      .ok (a0 ++ [⟨c0 + 1, ModeDir.lor mode, 2, 0,
        [(".", c0 + 1), ("..", c0 + 1)]⟩]) := by
  have hlook : lookupN (a0 ++ [⟨c0 + 1, ModeDir.lor mode, 1, 0, [(".", c0 + 1)]⟩])
      (c0 + 1) = ⟨c0 + 1, ModeDir.lor mode, 1, 0, [(".", c0 + 1)]⟩ :=
    lookupN_append_fresh a0 _ (fun x hx => hfresh x hx)
  have hisdir : isDirN (⟨c0 + 1, ModeDir.lor mode, 1, 0, [(".", c0 + 1)]⟩ : InodeData)
      = true := by
    simp only [isDirN, decide_eq_true_eq]
    exact modeDirLor_isDir mode
  simp only [inodeLink, hlook, hisdir]
  rw [if_neg (by simp)]
  rw [if_neg (by simp [dirFind, sortSearch, searchGo, strLt, goStrLt])]
  rw [modifyNode_append_fresh a0 _ _ (fun x hx => hfresh x hx)]
  unfold countUp
  rw [modifyNode_append_fresh a0 _ _ (fun x hx => hfresh x hx)]
  simp [dirFind, sortSearch, searchGo, insertAt, strLt, goStrLt]

theorem inoNewDir_eq (a0 : List InodeData) (c0 mode : Nat)
    (hfresh : ∀ nd ∈ a0, nd.ino ≠ c0 + 1) :
    inoNewDir a0 c0 mode =
      .ok (a0 ++ [⟨c0 + 1, ModeDir.lor mode, 2, 0,
        [(".", c0 + 1), ("..", c0 + 1)]⟩], c0 + 1, c0 + 1) := by
  simp only [inoNewDir, inoNew]
  rw [modifyNode_append_fresh a0 _ _ (fun x hx => hfresh x hx)]
  rw [newDir_step1 a0 c0 mode hfresh]
  simp only [newDir_step2 a0 c0 mode hfresh]

theorem newDir_rebind (a0 : List InodeData) (c0 mode parent : Nat) (a2 : List InodeData)
    (hfresh : ∀ nd ∈ a0, nd.ino ≠ c0 + 1)
    (hreb : inodeLink (a0 ++ [⟨c0 + 1, ModeDir.lor mode, 2, 0,
        [(".", c0 + 1), ("..", c0 + 1)]⟩]) (c0 + 1) ".." parent = .ok a2) :
    a2 = countUp (a0 ++ [⟨c0 + 1, ModeDir.lor mode, 1, 0,
        [(".", c0 + 1), ("..", parent)]⟩]) parent := by
  have hlook : lookupN (a0 ++ [⟨c0 + 1, ModeDir.lor mode, 2, 0,
      [(".", c0 + 1), ("..", c0 + 1)]⟩]) (c0 + 1) =
      ⟨c0 + 1, ModeDir.lor mode, 2, 0, [(".", c0 + 1), ("..", c0 + 1)]⟩ :=
    lookupN_append_fresh a0 _ (fun x hx => hfresh x hx)
  have hisdir : isDirN (⟨c0 + 1, ModeDir.lor mode, 2, 0,
      [(".", c0 + 1), ("..", c0 + 1)]⟩ : InodeData) = true := by
    simp only [isDirN, decide_eq_true_eq]
    exact modeDirLor_isDir mode
  simp only [inodeLink, hlook, hisdir] at hreb
  rw [if_neg (by simp)] at hreb
  rw [if_pos (by refine ⟨?_, ?_⟩ <;> simp [dirFind, sortSearch, searchGo, strLt, goStrLt])] at hreb
  rw [show (([(".", c0 + 1), ("..", c0 + 1)].getD
      (dirFind ([(".", c0 + 1), ("..", c0 + 1)]) "..") dummyEntry)).2 = c0 + 1 from
    (by simp [dirFind, sortSearch, searchGo, strLt, goStrLt, dummyEntry])] at hreb
  have hcd : countDown (a0 ++ [⟨c0 + 1, ModeDir.lor mode, 2, 0,
      [(".", c0 + 1), ("..", c0 + 1)]⟩]) (c0 + 1) =
      .ok (a0 ++ [⟨c0 + 1, ModeDir.lor mode, 1, 0,
      [(".", c0 + 1), ("..", c0 + 1)]⟩]) := by
    unfold countDown
    rw [hlook]
    rw [if_neg (by simp)]
    rw [modifyNode_append_fresh a0 _ _ (fun x hx => hfresh x hx)]
    rfl
  simp only [hcd] at hreb
  rw [modifyNode_append_fresh a0 _ _ (fun x hx => hfresh x hx)] at hreb
  have := Res.ok.inj hreb
  rw [← this]
  simp [dirFind, sortSearch, searchGo, strLt, goStrLt]

end PBox

/-! ## The claims -/

namespace PBox

/-- C1: Write/read round trip — writing any byte sequence `b` to a freshly
created file and reading it back from offset 0 returns exactly `b`; in the
concrete two-write scenario, the second 16-byte write lands at the offset left
by the first, and a 32-byte read after `seek(0, start)` returns the 32-byte
concatenation. -/
theorem c1_round_trip (b : List Nat) :
    fileWriteOp createdHandle b = .ok ((b.length, none), afterWrite b) ∧
    fileSeek (afterWrite b) 0 seekStart = ((0, none), { afterWrite b with offset := 0 }) ∧
    fileReadOp { afterWrite b with offset := 0 } (List.replicate b.length 0) =
      .ok ((b, b.length, none), afterWrite b) ∧
    fileWriteOp createdHandle bytes1 = .ok ((16, none), afterWrite bytes1) ∧
    fileWriteOp (afterWrite bytes1) bytes2 = .ok ((16, none), afterTwoWrites) ∧
    fileSeek afterTwoWrites 0 seekStart = ((0, none), { afterTwoWrites with offset := 0 }) ∧
    fileReadOp { afterTwoWrites with offset := 0 } (List.replicate 32 0) =
      .ok ((bytes1 ++ bytes2, 32, none), afterTwoWrites) :=
  ⟨writeOp_fresh b, rfl, read_back b, rfl, rfl, rfl, rfl⟩

/-- C2: on the `TestLinkUnlinkMove` tree, renaming the regular file
`/file_0001.txt` (ino 5) onto the existing directory `/dir01` (ino 3) does
not move the file into the directory: `Inode.Rename` returns `Exist` for
every destination that resolves to a directory, even when the source is a
regular file. -/
theorem c2_rename_into_directory :
    isDirN (lookupN c2Arena 5) = false ∧
    isDirN (lookupN c2Arena 3) = true ∧
    resolveS c2Arena 1 "/file_0001.txt" = .ok 5 ∧
    resolveS c2Arena 1 "/dir01" = .ok 3 ∧
    pbFSRename c2FS "/file_0001.txt" "/dir01" = .err .exist :=
  ⟨by decide, by decide, rfl, rfl, rfl⟩

/-- C3: `file.WriteAt` performs no `O_APPEND` check: a positioned write on a
handle opened `O_APPEND|O_RDWR` succeeds and changes the contents. The
source's own `TestWriteAtInAppendMode` passes only because its flags
`O_APPEND|O_CREATE` carry `O_RDONLY` access bits, so the read-only check
fires instead. -/
theorem c3_write_at_append_mode :
    appendHandle.flags.land O_APPEND ≠ 0 ∧
    fileWriteAt appendHandle [1, 2, 3] 0 =
      .ok ((3, none),
        { appendHandle with ciphertext := Encrypt [1, 2, 3], size := 3 }) ∧
    apTestHandle.flags.land O_APPEND ≠ 0 ∧
    apTestHandle.flags.land O_ACCESS = O_RDONLY ∧
    fileWriteAt apTestHandle [1, 2, 3] 0 = .ok ((0, some .permission), apTestHandle) :=
  ⟨by decide, rfl, by decide, by decide, rfl⟩

/-- C4: after every successful `write`, `write_at` or `truncate`, the
size/ciphertext invariant holds: non-empty ciphertext determines the size as
`len(ciphertext) − OVERHEAD`, empty ciphertext means size 0. -/
theorem c4_size_invariant (f : FileState) (b : List Nat) (off s : Int) :
    (∀ n f2, fileWrite f b off = .ok ((n, none), f2) → sizeInv f2) ∧
    (∀ n f2, fileWriteAt f b off = .ok ((n, none), f2) → sizeInv f2) ∧
    (sizeInv f → ∀ f2, fileTruncate f s = .ok (none, f2) → sizeInv f2) := by
  have hw : ∀ n f2, fileWrite f b off = .ok ((n, none), f2) → sizeInv f2 := by
    intro n f2 h
    simp only [fileWrite] at h
    repeat' split at h
    all_goals simp_all
    all_goals obtain ⟨-, rfl⟩ := h
    all_goals exact sizeInv_updateSize _
  refine ⟨hw, ?_, ?_⟩
  · intro n f2 h
    simp only [fileWriteAt] at h
    repeat' split at h
    all_goals first
      | simp_all
      | exact hw _ _ h
  · intro hinv f2 h
    simp only [fileTruncate] at h
    repeat' split at h
    all_goals simp_all
    all_goals try (subst h; exact sizeInv_updateSize _)
    all_goals try (rw [← h]; exact hinv)

/-- Witness for C4: writing the byte `7` to a fresh `O_RDWR` file yields a
state satisfying the invariant, and so does a no-op truncate to 0. -/
theorem c4_size_invariant_witness : sizeInv c4WitState ∧ sizeInv wHandle :=
  ⟨(c4_size_invariant wHandle [7] 0 0).1 1 c4WitState rfl,
   (c4_size_invariant wHandle [7] 0 0).2.2 (by decide) wHandle rfl⟩

/-- C5 (amended): for every directory created by `NewDir` (with `".."`
rebound to its parent, as `Mkdir` does) and every sequence of link/unlink
operations with valid entry names, the directory's entry names stay unique
and sorted in Go's bytewise order and the `"."` → self and `".."` → parent
entries stay present. (They need not sit at indices 0 and 1: a valid name
such as `"!"` sorts before `"."`.) -/
theorem c5_directory_invariant :
    (∀ (a0 : List InodeData) (c0 mode parent : Nat) (a1 a2 : List InodeData) (c1 d : Nat),
      (∀ nd ∈ a0, nd.ino ≠ c0 + 1) →
      inoNewDir a0 c0 mode = .ok (a1, c1, d) →
      inodeLink a1 d ".." parent = .ok a2 →
      hasIno a2 d = true ∧ dirInv (lookupN a2 d).dir d parent) ∧
    (∀ (dIno parent : Nat) (ops : List DirOp) (a a2 : List InodeData),
      hasIno a dIno = true →
      (∀ op ∈ ops, opValid op = true) →
      dirInv (lookupN a dIno).dir dIno parent →
      applyOps a ops = .ok a2 →
      dirInv (lookupN a2 dIno).dir dIno parent) := by
  constructor
  · intro a0 c0 mode parent a1 a2 c1 d hfresh hnew hreb
    rw [inoNewDir_eq a0 c0 mode hfresh] at hnew
    have h := Res.ok.inj hnew
    injection h with h1 h23
    injection h23 with h2 h3
    subst h1
    subst h3
    have ha2 := newDir_rebind a0 c0 mode parent a2 hfresh hreb
    subst ha2
    constructor
    · rw [countUp_hasIno]
      exact hasIno_append_fresh a0 _
    · rw [countUp_dir]
      rw [lookupN_append_fresh a0 _ (fun x hx => hfresh x hx)]
      refine ⟨?_, ?_, ?_⟩
      · simp only [strictSorted]
        rw [List.pairwise_cons]
        refine ⟨?_, ?_⟩
        · intro e he
          simp at he
          rw [he]
          show strLt "." ".." = true
          decide
        · simp
      · simp
      · simp
  · intro dIno parent ops a a2 hp hv hinv h
    exact applyOps_dirInv dIno parent ops a a2 hp hv hinv h

/-- Witness for C5: the invariant holds concretely for a root directory
built by `NewDir` plus the `".."` rebind, before and after linking a file
under the valid name `"!"`. -/
theorem c5_directory_invariant_witness :
    (hasIno c5InitArena 1 = true ∧ dirInv (lookupN c5InitArena 1).dir 1 1) ∧
    dirInv (lookupN c5OpsArena 1).dir 1 1 :=
  ⟨c5_directory_invariant.1 [] 0 0o755 1 _ c5InitArena _ _ (by simp) rfl rfl,
   c5_directory_invariant.2 1 1 [DirOp.link 1 "!" 2] c5InitArena c5OpsArena (by decide)
     (by decide) (by decide) rfl⟩

/-- Counterexample for C5 as stated: linking the valid name `"!"` (which
sorts before `"."` in Go's bytewise order) into a fresh root directory leaves
a listing whose entry 0 is not `"."` and whose entry 1 is not `".."`, so the
positional part `d.dir[0] = self, d.dir[1] = parent` of the claim fails. -/
theorem c5_directory_invariant_counterexample :
    opValid (DirOp.link 1 "!" 2) = true ∧
    applyOps c5InitArena [DirOp.link 1 "!" 2] = .ok c5OpsArena ∧
    (lookupN c5OpsArena 1).dir = [("!", 2), (".", 1), ("..", 1)] ∧
    ((lookupN c5OpsArena 1).dir.getD 0 dummyEntry).2 ≠ 1 ∧
    ((lookupN c5OpsArena 1).dir.getD 1 dummyEntry).1 ≠ ".." :=
  ⟨by decide, rfl, rfl, by decide, by decide⟩

/-- C6 (amended): a read on an open readable regular-file handle whose offset
equals the size returns `(0, EOF)` for every NON-empty buffer; a zero-length
buffer instead returns `(0, nil)` without EOF, because the zero-length check
precedes the EOF check. -/
theorem c6_read_at_eof (f : FileState) (p : List Nat)
    (hc : f.closed = false) (hp : p ≠ [])
    (hacc : f.flags.land O_ACCESS ≠ O_WRONLY) (hd : f.isDir = false)
    (hoff : f.offset = f.size) :
    fileReadOp f p = .ok ((p, 0, some .eof), f) := by
  have hlen : p.length ≠ 0 := fun h => hp (List.length_eq_zero.mp h)
  have hle : f.size ≤ f.offset := le_of_eq hoff.symm
  obtain ⟨cl, di, fl, sz, ct, off, dof, dl⟩ := f
  simp_all [fileReadOp, fileRead]

/-- Witness for C6: a 1-byte read at the end of a 3-byte file reports
`(0, EOF)`. -/
theorem c6_read_at_eof_witness :
    eofHandle.offset = eofHandle.size ∧
    fileReadOp eofHandle [0] = .ok (([0], 0, some .eof), eofHandle) :=
  ⟨by decide, c6_read_at_eof eofHandle [0] rfl (by decide) (by decide) rfl (by decide)⟩

/-- Counterexample for C6 as stated: with the offset at the end of the file,
a zero-length read returns `(0, nil)` — no EOF — because `len(p) == 0` is
checked before the EOF condition. -/
theorem c6_read_at_eof_counterexample :
    eofHandle.offset = eofHandle.size ∧
    fileReadOp eofHandle [] = .ok (([], 0, none), eofHandle) :=
  ⟨by decide, rfl⟩

/-- C7: negative-size truncate. `pbFS.Truncate` rejects `size < 0` but with
the `fs.ErrClosed` sentinel (the spec demands `Invalid`), and `file.Truncate`
has no negative-size check at all: `plaintext[:int(size)]` is a Go run-time
panic. -/
theorem c7_truncate_negative :
    (∀ (fs : VFS) (name : String) (size : Int), size < 0 →
      pbFSTruncate fs name size = .err .closed) ∧
    fileTruncate wHandle (-1) = .panicked := by
  refine ⟨?_, rfl⟩
  intro fs name size h
  simp [pbFSTruncate, h]

/-- Witness for C7: truncating to −1 through the filesystem root returns the
`Closed` error. -/
theorem c7_truncate_negative_witness :
    pbFSTruncate pbNewFS "/f" (-1) = .err .closed :=
  c7_truncate_negative.1 pbNewFS "/f" (-1) (by decide)

/-- C8 (amended): for `whence = current` the source guards with
`offset < 0 && (size + offset) < 0` — against the inode size, not the current
handle offset — so on an open non-directory handle the seek fails `Invalid`
exactly when `d < 0 ∧ size + d < 0`, and otherwise sets the offset to
`o + d`, which can be negative. -/
theorem c8_seek_current (f : FileState) (d : Int)
    (hc : f.closed = false) (hd : f.isDir = false) :
    fileSeek f d seekCurrent =
      if d < 0 ∧ f.size + d < 0 then ((0, some .invalid), f)
      else ((f.offset + d, none), { f with offset := f.offset + d }) := by
  simp [fileSeek, hc, hd, seekCurrent, seekStart]

/-- Witness for C8: `seek(5, current)` from offset 0 yields offset 5. -/
theorem c8_seek_current_witness :
    fileSeek seekHandle 5 seekCurrent = ((5, none), { seekHandle with offset := 5 }) := by
  have h := c8_seek_current seekHandle 5 rfl rfl
  rw [h]
  decide

/-- Counterexample for C8 as stated: on a 5-byte file at offset 0,
`seek(-1, current)` should fail (`0 + (-1) < 0`) but succeeds and leaves the
handle offset at −1, because the guard tests the size instead of the offset. -/
theorem c8_seek_current_counterexample :
    seekHandle.offset + (-1) < 0 ∧
    fileSeek seekHandle (-1) seekCurrent =
      ((-1, none), { seekHandle with offset := -1 }) :=
  ⟨by decide, by decide⟩

/-- C9: `file.ReadDir(n)` sizes its result slice as `n − diroffset` yet
writes up to `n` entries into it, so `ReadDir(3)` on a directory listing 5
entries (3 real ones) panics with an index out of range; and when fewer than
`n` entries remain, the returned slice keeps nil slots and the cursor
advances by `n` — not by the number of entries returned. -/
theorem c9_read_dir_batching :
    dirHandle5.dirListing.length = 5 ∧
    fileReadDir dirHandle5 3 = .panicked ∧
    fileReadDir { dirHandle5 with diroffset := 4 } 2 =
      .ok ((some [some ("c", 4), none], none), { dirHandle5 with diroffset := 6 }) :=
  ⟨rfl, rfl, rfl⟩

/-- C10 (amended): `OpenFile("/", flag, perm)` short-circuits every check and
returns a handle for every flag and permission; opening any other existing
directory with write access or `O_TRUNC` fails `IsADirectory` — unless
`O_CREATE|O_EXCL` are both set, in which case the exclusive-create check
fires first and the call fails `Exist` instead. -/
theorem c10_open_root :
    (∀ (fs : VFS) (flag perm : Nat), fs.rootIno < fs.slots.length →
      ∃ h, pbFSOpenFile fs "/" flag perm = .ok (h, fs)) ∧
    (∀ (fs : VFS) (name : String) (flag perm nodeIno parentIno : Nat),
      name ≠ "/" → name ≠ "." →
      (if name.toList.length > 1 ∧ name.toList.headD ' ' = '/'
        then validPathL (name.toList.drop 1) else validPathL name.toList) = true →
      resolveS fs.arena (if isAbsS name then fs.rootIno else fs.dirIno) name
        = .ok nodeIno →
      isDirN (lookupN fs.arena nodeIno) = true →
      resolveS fs.arena (if isAbsS name then fs.rootIno else fs.dirIno)
        (pathCleanS (pathSplitS name).1) = .ok parentIno →
      (flag.land O_ACCESS ≠ O_RDONLY ∨ flag.land O_TRUNC ≠ 0) →
      ¬ (flag.land O_CREATE ≠ 0 ∧ flag.land O_EXCL ≠ 0) →
      pbFSOpenFile fs name flag perm = .err .isADirectory) ∧
    (∀ (fs : VFS) (name : String) (flag perm nodeIno parentIno : Nat),
      name ≠ "/" → name ≠ "." →
      (if name.toList.length > 1 ∧ name.toList.headD ' ' = '/'
        then validPathL (name.toList.drop 1) else validPathL name.toList) = true →
      resolveS fs.arena (if isAbsS name then fs.rootIno else fs.dirIno) name
        = .ok nodeIno →
      resolveS fs.arena (if isAbsS name then fs.rootIno else fs.dirIno)
        (pathCleanS (pathSplitS name).1) = .ok parentIno →
      flag.land O_CREATE ≠ 0 ∧ flag.land O_EXCL ≠ 0 →
      pbFSOpenFile fs name flag perm = .err .exist) := by
  refine ⟨?_, ?_, ?_⟩
  · intro fs flag perm hlen
    simp only [pbFSOpenFile]
    rw [if_pos trivial, if_pos hlen]
    exact ⟨_, rfl⟩
  · intro fs name flag perm nodeIno parentIno hroot hdot hvalid hres hdir hpar hacc hexcl
    simp only [pbFSOpenFile]
    rw [if_neg hroot]
    rw [if_neg (not_not_intro hvalid)]
    rw [if_neg hdot]
    simp only [hpar]
    simp only [hres]
    rw [if_neg hexcl]
    rw [if_pos ⟨hdir, hacc⟩]
  · intro fs name flag perm nodeIno parentIno hroot hdot hvalid hres hpar hexcl
    simp only [pbFSOpenFile]
    rw [if_neg hroot]
    rw [if_neg (not_not_intro hvalid)]
    rw [if_neg hdot]
    simp only [hpar]
    simp only [hres]
    rw [if_pos hexcl]

/-- Witness for C10: on a filesystem with one subdirectory `/d`, opening `/`
with `O_WRONLY|O_TRUNC` (513) succeeds; opening `/d` with `O_RDWR` fails
`IsADirectory`; opening `/d` with `O_WRONLY|O_CREATE|O_EXCL` (193) fails
`Exist`. -/
theorem c10_open_root_witness :
    (∃ h, pbFSOpenFile fsWithD "/" 513 0 = .ok (h, fsWithD)) ∧
    pbFSOpenFile fsWithD "/d" O_RDWR 0 = .err .isADirectory ∧
    pbFSOpenFile fsWithD "/d" 193 0 = .err .exist :=
  ⟨c10_open_root.1 fsWithD 513 0 (by decide),
   c10_open_root.2.1 fsWithD "/d" O_RDWR 0 2 1 (by decide) (by decide) (by decide)
     rfl (by decide) rfl (by decide) (by decide),
   c10_open_root.2.2 fsWithD "/d" 193 0 2 1 (by decide) (by decide) (by decide)
     rfl rfl (by decide)⟩

/-- Counterexample for C10 as stated: `/d` is an existing directory, yet
opening it with write access plus `O_CREATE|O_EXCL` does not fail
`IsADirectory` — the exclusive-create check fires first and returns
`Exist`. -/
theorem c10_open_root_counterexample :
    isDirN (lookupN fsWithD.arena 2) = true ∧
    resolveS fsWithD.arena fsWithD.rootIno "/d" = .ok 2 ∧
    pbFSOpenFile fsWithD "/d" ((O_RDWR.lor O_CREATE).lor O_EXCL) 0 = .err .exist :=
  ⟨by decide, rfl, rfl⟩

end PBox
